import Mathlib

/-!
Verification of the `renomeador_chandra` document-renaming pipeline.

This file shallowly embeds the core of the repository in Lean 4:

* `utils.py` — `normalize_text` and `slugify_safe`;
* `parsing.py` — the regex-based field extractors, `ParsedFields` and
  `parse_document`;
* `rules.py` — `_require`, the five naming rules and `build_filename`;
* `cli.py` — `_required_fields`, `_confidence_ok` and the pending/rename
  decision of `process`;
* `renamer.py` — `_resolve_collision` and `rename_file`.

Modelling conventions:

* Python strings are `List Char` (`Text`).  Regex searches are embedded as
  specialized scanners that implement the leftmost-match / greedy /
  backtracking semantics of the concrete patterns appearing in the source.
* Python floats (the confidence scores `0.6 … 1.0`) are embedded as `ℚ`;
  every score appearing in the program is exactly representable and all
  comparisons performed by the program coincide with the rational ones.
* `unicodedata.normalize("NFKD", ·)` is embedded by `nfkdDecomp`, a concrete
  decomposition table covering the Latin-1 accented letters of the
  application's (Portuguese) domain together with the no-break space;
  characters outside the table decompose to themselves.  Combining marks are
  the U+0300–U+036F block.  Python's `str.upper`, `str.isalnum`, `\d`, `\w`
  and `\s` are embedded by their ASCII restrictions, which cover every
  character produced by the table and every character the extractors test.
* Python set iteration order (over the vocabulary sets) is fixed to the
  source's insertion order; `sorted(..., key=len, reverse=True)` is embedded
  by an explicit length-sorted list.
* The filesystem visible to the renamer is a list of file names already
  present in the output directory.
-/

/-- Python strings, embedded as lists of characters. -/
abbrev Text := List Char

namespace Renomeador

/-! ## Character classes (ASCII restrictions of Python's classes) -/

/-- The ASCII lowercase letters. -/
def lowerChars : Text := "abcdefghijklmnopqrstuvwxyz".toList

/-- The ASCII uppercase letters. -/
def upperChars : Text := "ABCDEFGHIJKLMNOPQRSTUVWXYZ".toList

/-- The ASCII digits. -/
def digitChars : Text := "0123456789".toList

/-- Embeds `\d` of the patterns in `parsing.py` (ASCII restriction). -/
def isDigitCh (c : Char) : Bool := decide (c ∈ digitChars)

/-- Python `str.isalnum` (ASCII restriction). -/
def pyIsAlnum (c : Char) : Bool :=
  decide (c ∈ lowerChars) || decide (c ∈ upperChars) || decide (c ∈ digitChars)

/-- Embeds `\w`: word characters for the `\b` boundaries of the patterns. -/
def isWordCh (c : Char) : Bool := pyIsAlnum c || decide (c = '_')

/-- Python whitespace (`\s`, `str.strip`, `str.split`): ASCII whitespace. -/
def pySpace (c : Char) : Bool :=
  decide (c ∈ [' ', '\t', '\n', '\r', Char.ofNat 11, Char.ofNat 12])

/-- Python `str.upper`, restricted to ASCII: maps each lowercase letter to
its uppercase counterpart and leaves everything else unchanged. -/
def pyUpper (c : Char) : Char :=
  match (lowerChars.zip upperChars).lookup c with
  | some u => u
  | none => c

/-- Embeds `str.upper` on a whole string. -/
def upperStr (t : Text) : Text := t.map pyUpper

/-! ## `utils.normalize_text` -/

/-- Combining marks discarded by `normalize_text` (the U+0300–U+036F
combining-diacritical block, which is where every mark produced by
`nfkdTable` lives). -/
def combining (c : Char) : Bool := decide (0x300 ≤ c.toNat ∧ c.toNat ≤ 0x36F)

/-- NFKD decompositions of the accented Latin-1 letters of the application's
domain, plus the no-break space.  `unicodedata.normalize("NFKD", ·)`
restricted to this alphabet. -/
def nfkdTable : List (Char × Text) :=
  [ ('À', ['A', Char.ofNat 0x300]), ('Á', ['A', Char.ofNat 0x301]),
    ('Â', ['A', Char.ofNat 0x302]), ('Ã', ['A', Char.ofNat 0x303]),
    ('Ä', ['A', Char.ofNat 0x308]), ('Ç', ['C', Char.ofNat 0x327]),
    ('È', ['E', Char.ofNat 0x300]), ('É', ['E', Char.ofNat 0x301]),
    ('Ê', ['E', Char.ofNat 0x302]), ('Ë', ['E', Char.ofNat 0x308]),
    ('Ì', ['I', Char.ofNat 0x300]), ('Í', ['I', Char.ofNat 0x301]),
    ('Î', ['I', Char.ofNat 0x302]), ('Ï', ['I', Char.ofNat 0x308]),
    ('Ñ', ['N', Char.ofNat 0x303]), ('Ò', ['O', Char.ofNat 0x300]),
    ('Ó', ['O', Char.ofNat 0x301]), ('Ô', ['O', Char.ofNat 0x302]),
    ('Õ', ['O', Char.ofNat 0x303]), ('Ö', ['O', Char.ofNat 0x308]),
    ('Ù', ['U', Char.ofNat 0x300]), ('Ú', ['U', Char.ofNat 0x301]),
    ('Û', ['U', Char.ofNat 0x302]), ('Ü', ['U', Char.ofNat 0x308]),
    ('à', ['a', Char.ofNat 0x300]), ('á', ['a', Char.ofNat 0x301]),
    ('â', ['a', Char.ofNat 0x302]), ('ã', ['a', Char.ofNat 0x303]),
    ('ä', ['a', Char.ofNat 0x308]), ('ç', ['c', Char.ofNat 0x327]),
    ('è', ['e', Char.ofNat 0x300]), ('é', ['e', Char.ofNat 0x301]),
    ('ê', ['e', Char.ofNat 0x302]), ('ë', ['e', Char.ofNat 0x308]),
    ('ì', ['i', Char.ofNat 0x300]), ('í', ['i', Char.ofNat 0x301]),
    ('î', ['i', Char.ofNat 0x302]), ('ï', ['i', Char.ofNat 0x308]),
    ('ñ', ['n', Char.ofNat 0x303]), ('ò', ['o', Char.ofNat 0x300]),
    ('ó', ['o', Char.ofNat 0x301]), ('ô', ['o', Char.ofNat 0x302]),
    ('õ', ['o', Char.ofNat 0x303]), ('ö', ['o', Char.ofNat 0x308]),
    ('ù', ['u', Char.ofNat 0x300]), ('ú', ['u', Char.ofNat 0x301]),
    ('û', ['u', Char.ofNat 0x302]), ('ü', ['u', Char.ofNat 0x308]),
    ('ý', ['y', Char.ofNat 0x301]), (Char.ofNat 0xA0, [' ']) ]

/-- First-match association lookup (decidable equality on keys). -/
def tableLookup (c : Char) : List (Char × Text) → Option Text
  | [] => none
  | (k, v) :: rest => if k = c then some v else tableLookup c rest

/-- Per-character NFKD decomposition (identity off the table). -/
def nfkdDecomp (c : Char) : Text :=
  match tableLookup c nfkdTable with
  | some l => l
  | none => [c]

/-- Embeds `unicodedata.normalize("NFKD", value)` on a string. -/
def decompose (t : Text) : Text := t.flatMap nfkdDecomp

/-- One-sided whitespace strip. -/
def dropSpaces (t : Text) : Text := t.dropWhile pySpace

/-- Python `str.strip()`: remove leading and trailing whitespace. -/
def pyStrip (t : Text) : Text := ((dropSpaces t).reverse.dropWhile pySpace).reverse

/-- Embeds `NORMALIZE_WHITESPACE_RE.sub(" ", ·)`: replace every maximal run of
whitespace by a single space. -/
def collapse : Text → Text
  | [] => []
  | [c] => if pySpace c then [' '] else [c]
  | c₁ :: c₂ :: rest =>
    if pySpace c₁ then
      if pySpace c₂ then collapse (c₂ :: rest)
      else ' ' :: collapse (c₂ :: rest)
    else c₁ :: collapse (c₂ :: rest)

/-- Embeds `utils.normalize_text`: NFKD-decompose, drop combining marks, strip, and
collapse whitespace runs to single spaces. -/
def normalize_text (t : Text) : Text :=
  collapse (pyStrip ((decompose t).filter (fun c => !combining c)))

/-! ## `utils.slugify_safe` -/

/-- Embeds `utils.slugify_safe`: normalize, keep only alphanumeric characters, and
uppercase them. -/
def slugify_safe (t : Text) : Text :=
  (normalize_text t).filterMap (fun c => if pyIsAlnum c then some (pyUpper c) else none)

/-! ## Generic scanning helpers (embedding of `re` on the concrete patterns) -/

/-- Decidable test that the first list starts the second. -/
def startsWith : Text → Text → Bool
  | [], _ => true
  | _ :: _, [] => false
  | a :: w, b :: s => decide (a = b) && startsWith w s

/-- Python's substring test `w in s`. -/
def containsSub (w : Text) : Text → Bool
  | [] => decide (w = [])
  | c :: rest => startsWith w (c :: rest) || containsSub w rest

/-- Whether the character before the current position (if any) is a word
character, for `\b` boundaries. -/
def prevIsWord : Option Char → Bool
  | none => false
  | some c => isWordCh c

/-- Embeds `\b` at the position after a word character: holds at end of input or
before a non-word character. -/
def boundaryAfter : Text → Bool
  | [] => true
  | c :: _ => !isWordCh c

/-- Match of `\bw\b` (for an alphanumeric word `w`) at the current position,
given the preceding character. -/
def wordMatchAt (prev : Option Char) (w s : Text) : Bool :=
  !prevIsWord prev && startsWith w s && boundaryAfter (s.drop w.length)

/-- Scan for `\bw\b` anywhere in the remaining input. -/
def wordSearchAux (w : Text) : Option Char → Text → Bool
  | _, [] => false
  | prev, c :: rest => wordMatchAt prev w (c :: rest) || wordSearchAux w (some c) rest

/-- Embeds `re.search(rf"\b{w}\b", s)` viewed as a Boolean test. -/
def wordSearch (w s : Text) : Bool := wordSearchAux w none s

/-- Python `str.find(w)` followed by slicing off the match: the text after
the first occurrence of `w`, or `none` when `w` does not occur. -/
def afterSub (w : Text) : Text → Option Text
  | [] => if w = [] then some [] else none
  | c :: rest =>
    if startsWith w (c :: rest) then some ((c :: rest).drop w.length)
    else afterSub w rest

/-- First match of any of the alternatives at the current position, in
alternation order. -/
def altsAt (alts : List Text) (s : Text) : Option Text :=
  alts.findSome? (fun a => if startsWith a s then some a else none)

/-- Embeds `re.search("(A|B|...)", s)`: leftmost position, then alternation order
(the embedding fixes the iteration order of the Python set backing the
alternation). -/
def searchAlts (alts : List Text) : Text → Option Text
  | [] => none
  | c :: rest =>
    match altsAt alts (c :: rest) with
    | some a => some a
    | none => searchAlts alts rest

/-! ## `parsing.py` — pattern matchers -/

/-- Separators accepted by `DATE_PATTERN`. -/
def isDateSep (c : Char) : Bool := decide (c ∈ ['/', '-', '.'])

/-- Match of `DATE_PATTERN = (\d{2})[\/\-.](\d{2})[\/\-.](\d{4})` at the
current position; returns the three groups (day, month, year). -/
def dateMatchAt : Text → Option (Text × Text × Text)
  | d₁ :: d₂ :: s₁ :: m₁ :: m₂ :: s₂ :: y₁ :: y₂ :: y₃ :: y₄ :: _ =>
    if isDigitCh d₁ && isDigitCh d₂ && isDateSep s₁ && isDigitCh m₁ && isDigitCh m₂ &&
        isDateSep s₂ && isDigitCh y₁ && isDigitCh y₂ && isDigitCh y₃ && isDigitCh y₄ then
      some ([d₁, d₂], [m₁, m₂], [y₁, y₂, y₃, y₄])
    else none
  | _ => none

/-- Embeds `DATE_PATTERN.search`: leftmost match. -/
def dateSearch : Text → Option (Text × Text × Text)
  | [] => none
  | c :: rest =>
    match dateMatchAt (c :: rest) with
    | some g => some g
    | none => dateSearch rest

/-- Match of `YEAR_PATTERN = \b(20\d{2})\b` at the current position. -/
def yearMatchAt (prev : Option Char) : Text → Option Text
  | c₁ :: c₂ :: c₃ :: c₄ :: rest =>
    if decide (c₁ = '2') && decide (c₂ = '0') && isDigitCh c₃ && isDigitCh c₄ &&
        !prevIsWord prev && boundaryAfter rest then
      some [c₁, c₂, c₃, c₄]
    else none
  | _ => none

/-- Embeds `YEAR_PATTERN.search`: leftmost match. -/
def yearSearchAux : Option Char → Text → Option Text
  | _, [] => none
  | prev, c :: rest =>
    match yearMatchAt prev (c :: rest) with
    | some g => some g
    | none => yearSearchAux (some c) rest

/-- Embeds `YEAR_PATTERN.search` from the start of the text. -/
def yearSearch (t : Text) : Option Text := yearSearchAux none t

/-- Match of `CONTRACT_NUMBER_PATTERN` (`\b(\d{5,8})` followed by an
optional non-captured `"/"`-or-`"-"`-separated digit suffix and `\b`) at the
current position (the word boundary before the position is checked by the
caller).  Returns `group(0)` of the match.  This implements the engine's
greedy/backtracking behaviour specialized to this pattern: `\d{5,8}` can
only succeed with the full digit run at the position (a shorter take leaves
a digit adjacent to the final `\b`), the optional suffix is preferred when
it can complete, and otherwise the match falls back to the bare run, whose
closing `\b` is then guaranteed by the non-word separator. -/
def contractMatchAt (s : Text) : Option Text :=
  let r := (s.takeWhile isDigitCh).length
  if r < 5 || 8 < r then none
  else
    match s.drop r with
    | [] => some (s.take r)
    | c :: rest₂ =>
      if decide (c = '/') || decide (c = '-') then
        let m := (rest₂.takeWhile isDigitCh).length
        if 0 < m && boundaryAfter (rest₂.drop m) then
          some (s.take r ++ c :: rest₂.take m)
        else some (s.take r)
      else if isWordCh c then none
      else some (s.take r)

/-- Embeds `CONTRACT_NUMBER_PATTERN.search`: scan for the leftmost match. -/
def contractSearchAux : Option Char → Text → Option Text
  | _, [] => none
  | prev, c :: rest =>
    match (if prevIsWord prev then none else contractMatchAt (c :: rest)) with
    | some g => some g
    | none => contractSearchAux (some c) rest

/-- Embeds `CONTRACT_NUMBER_PATTERN.search` from the start of the text. -/
def contractSearch (t : Text) : Option Text := contractSearchAux none t

/-! ## `parsing.py` — vocabularies

Python iterates these as `set`s; the embedding fixes the insertion order of
the source literals (for `DOCUMENT_TITLES`, the source's
`sorted(..., key=len, reverse=True)`, with ties in insertion order). -/

/-- Embeds `CONTRACT_TYPES` in iteration order. -/
def CONTRACT_TYPES : List Text :=
  ["CCV".toList, "CPA".toList, "CPR".toList, "CCO".toList, "CCE".toList, "CDC".toList]

/-- Embeds `sorted(DOCUMENT_TITLES, key=len, reverse=True)`. -/
def DOCUMENT_TITLES_SORTED : List Text :=
  ["CONTR".toList, "PROM".toList, "1ADT".toList, "2ADT".toList, "3ADT".toList,
   "CMDT".toList, "CANI".toList, "TAPI".toList, "ADT".toList, "TIP".toList,
   "NOT".toList, "RAS".toList, "FAS".toList, "TAQ".toList]

/-- Embeds `ENVIRONMENTAL_DOCS` in iteration order. -/
def ENVIRONMENTAL_DOCS : List Text :=
  ["MAT".toList, "CARF".toList, "CARE".toList, "CTF".toList, "ITR".toList,
   "CCIR".toList, "IE".toList, "CND".toList, "ADA".toList, "CNE".toList,
   "SISLA".toList, "ICR".toList, "IPR".toList, "DARF".toList]

/-- Embeds `DOCUMENTO_PF_PJ` in iteration order (alternation order of the person
document pattern). -/
def DOCUMENTO_PF_PJ : List Text :=
  ["RG".toList, "CPF".toList, "CNPJ".toList, "CNH".toList, "CERTIDAO".toList,
   "CERTCASAMENTO".toList, "CERTNASC".toList]

/-- Embeds `KEYWORDS_FUNDOS`. -/
def KEYWORDS_FUNDOS : List Text :=
  ["FUNDO".toList, "FIP".toList, "FIAGRO".toList, "SPE".toList, "COTISTA".toList]

/-- Embeds `KEYWORDS_MERCADO`. -/
def KEYWORDS_MERCADO : List Text :=
  ["PARCEIRO".toList, "FAZENDA".toList, "PROPRIEDADE".toList]

/-- Embeds `STOP_WORDS`. -/
def STOP_WORDS : List Text :=
  ["PARCEIRO".toList, "FAZENDA".toList, "FUNDO".toList, "SPE".toList,
   "CONTRATO".toList, "NUMERO".toList, "TIPO".toList, "TITULO".toList,
   "DOCUMENTO".toList, "E".toList, "DE".toList, "DA".toList, "DO".toList,
   "PARA".toList]

/-! ## `parsing.py` — field extractors -/

/-- Embeds `_detect_context`: substring containment of the fund keywords, then the
market keywords. -/
def detect_context (u : Text) : Text :=
  if KEYWORDS_FUNDOS.any (fun kw => containsSub kw u) then "fundos".toList
  else if KEYWORDS_MERCADO.any (fun kw => containsSub kw u) then "mercado".toList
  else "auto".toList

/-- Embeds `_extract_date`: `DD<sep>MM<sep>YYYY` reordered to `YYYYMMDD` with
confidence 0.95, else a bare `20NN` year with confidence 0.7. -/
def extract_date (t : Text) : Option Text × ℚ :=
  match dateSearch t with
  | some (day, month, year) => (some (year ++ month ++ day), 0.95)
  | none =>
    match yearSearch t with
    | some y => (some y, 0.7)
    | none => (none, 0)

/-- Embeds `_extract_contract_number`: leftmost match of the contract-number
pattern, with `re.sub(r"\D", "", match.group(0))` applied — i.e. every
digit of the whole match, including any digits of the discardable suffix. -/
def extract_contract_number (t : Text) : Option Text × ℚ :=
  match contractSearch t with
  | some g => (some (g.filter isDigitCh), 0.9)
  | none => (none, 0)

/-- Iteration of `_extract_contract_type` over the vocabulary. -/
def extract_contract_type_go (u : Text) : List Text → Option Text × ℚ
  | [] => (none, 0)
  | ct :: rest =>
    if wordSearch ct u then
      if decide (ct = "CPA".toList) && containsSub "CPR".toList u then
        (some "CPA".toList, 0.85)
      else (some ct, 0.85)
    else extract_contract_type_go u rest

/-- Embeds `_extract_contract_type`. -/
def extract_contract_type (u : Text) : Option Text × ℚ :=
  extract_contract_type_go u CONTRACT_TYPES

/-- First whole-word vocabulary hit, shared by `_extract_title` and
`_extract_environmental`. -/
def firstWordHit (u : Text) : List Text → Option Text
  | [] => none
  | w :: rest => if wordSearch w u then some w else firstWordHit u rest

/-- Embeds `_extract_title`: longer codes first, confidence 0.8. -/
def extract_title (u : Text) : Option Text × ℚ :=
  match firstWordHit u DOCUMENT_TITLES_SORTED with
  | some w => (some w, 0.8)
  | none => (none, 0)

/-- Embeds `_extract_environmental`: confidence 0.85. -/
def extract_environmental (u : Text) : Option Text × ℚ :=
  match firstWordHit u ENVIRONMENTAL_DOCS with
  | some w => (some w, 0.85)
  | none => (none, 0)

/-- Embeds `str.split()` on whitespace, dropping empty tokens (accumulator holds
the current token reversed). -/
def splitWsAux : Text → Text → List Text
  | acc, [] => if acc = [] then [] else [acc.reverse]
  | acc, c :: rest =>
    if pySpace c then
      if acc = [] then splitWsAux [] rest else acc.reverse :: splitWsAux [] rest
    else splitWsAux (c :: acc) rest

/-- Python `str.split()`. -/
def splitWs (t : Text) : List Text := splitWsAux [] t

/-- The token-collection loop of `_extract_entity`: take tokens until the
first stop word (excluded) or until three tokens have been collected;
`n` is the number already collected. -/
def collectAux (n : Nat) : List Text → List Text
  | [] => []
  | tk :: rest =>
    if decide (tk ∈ STOP_WORDS) then []
    else if 3 ≤ n + 1 then [tk]
    else tk :: collectAux (n + 1) rest

/-- Embeds `" ".join(collected)`. -/
def joinSpace (ts : List Text) : Text := List.intercalate [' '] ts

/-- Embeds `_extract_entity`: find the keyword, strip `" :"`, split, collect up to
three non-stop-word tokens, and slug the joined result. -/
def extract_entity (t kw : Text) : Option Text :=
  match afterSub kw t with
  | none => none
  | some rem =>
    let rem₂ := rem.dropWhile (fun c => decide (c = ' ') || decide (c = ':'))
    let collected := collectAux 0 (splitWs rem₂)
    if collected = [] then none
    else some (slugify_safe (joinSpace collected))

/-- A `[:\s]` separator character of the person pattern. -/
def isSepColonSpace (c : Char) : Bool := decide (c = ':') || pySpace c

/-- A `[A-Z\s]` character of the person pattern's capture group. -/
def isCapCh (c : Char) : Bool := decide (c ∈ upperChars) || pySpace c

/-- Backtracking of `[:\s]+([A-Z\s]{3,50})` over the number `k` of
separator characters consumed (greedy: largest viable `k` first; the
capture then greedily takes at most 50 capture-class characters and the
match requires at least 3). -/
def personTailK (r : Text) : Nat → Option Text
  | 0 => none
  | k + 1 =>
    let cap := ((r.drop (k + 1)).takeWhile isCapCh).take 50
    if 3 ≤ cap.length then some cap else personTailK r k

/-- Embeds `[:\s]+([A-Z\s]{3,50})` right after an anchor: the captured group. -/
def personTail (r : Text) : Option Text :=
  personTailK r (r.takeWhile isSepColonSpace).length

/-- The anchor alternation `(?:PROPRIETARIO|PARCEIRO|CPF\s+DE)` tried at the
current position, continued with `personTail` (a failing tail makes the
engine try the next alternative at the same position). -/
def personMatchAt (s : Text) : Option Text :=
  (if startsWith "PROPRIETARIO".toList s then personTail (s.drop 12) else none) <|>
  (if startsWith "PARCEIRO".toList s then personTail (s.drop 8) else none) <|>
  (if startsWith "CPF".toList s then
    let afterCpf := s.drop 3
    let sp := afterCpf.dropWhile pySpace
    if decide (afterCpf.length ≠ sp.length) && startsWith "DE".toList sp then
      personTail (sp.drop 2)
    else none
   else none)

/-- Leftmost match of the person pattern. -/
def personSearch : Text → Option Text
  | [] => none
  | c :: rest =>
    match personMatchAt (c :: rest) with
    | some g => some g
    | none => personSearch rest

/-- Embeds `_extract_person`: the captured name is normalized and its spaces
removed; the companion document type is the first alternation hit of
`DOCUMENTO_PF_PJ` anywhere in the text (no word boundaries). -/
def extract_person (t : Text) : Option Text × Option Text × ℚ :=
  match personSearch t with
  | some cap =>
    let name := (normalize_text cap).filter (fun c => !decide (c = ' '))
    (some name, searchAlts DOCUMENTO_PF_PJ t, 0.8)
  | none => (none, none, 0)

/-! ## `parsing.ParsedFields` -/

/-- The fixed set of field names of `ParsedFields` (the source addresses
them as attribute-name strings via `setattr`/`getattr`). -/
inductive FieldName
  | data_assinatura
  | numero_contrato
  | tipo_contrato
  | titulo_documento
  | contexto
  | fazenda
  | parceiro
  | fundo
  | spe
  | ano_emissao
  | nome_documento
  | proprietario
  | documento_pf_pj
deriving DecidableEq, Repr

/-- Embeds `parsing.ParsedFields`: thirteen optional string fields, a confidence
dictionary, and the raw text. -/
structure ParsedFields where
  data_assinatura : Option Text := none
  numero_contrato : Option Text := none
  tipo_contrato : Option Text := none
  titulo_documento : Option Text := none
  contexto : Option Text := none
  fazenda : Option Text := none
  parceiro : Option Text := none
  fundo : Option Text := none
  spe : Option Text := none
  ano_emissao : Option Text := none
  nome_documento : Option Text := none
  proprietario : Option Text := none
  documento_pf_pj : Option Text := none
  confidences : List (FieldName × ℚ) := []
  raw_text : Text := []
deriving Repr

namespace ParsedFields

/-- Dynamic attribute read (`getattr(self, field)`). -/
def get (r : ParsedFields) : FieldName → Option Text
  | .data_assinatura => r.data_assinatura
  | .numero_contrato => r.numero_contrato
  | .tipo_contrato => r.tipo_contrato
  | .titulo_documento => r.titulo_documento
  | .contexto => r.contexto
  | .fazenda => r.fazenda
  | .parceiro => r.parceiro
  | .fundo => r.fundo
  | .spe => r.spe
  | .ano_emissao => r.ano_emissao
  | .nome_documento => r.nome_documento
  | .proprietario => r.proprietario
  | .documento_pf_pj => r.documento_pf_pj

/-- Dynamic attribute write (`setattr(self, field, value)`). -/
def setField (r : ParsedFields) (f : FieldName) (v : Text) : ParsedFields :=
  match f with
  | .data_assinatura => { r with data_assinatura := some v }
  | .numero_contrato => { r with numero_contrato := some v }
  | .tipo_contrato => { r with tipo_contrato := some v }
  | .titulo_documento => { r with titulo_documento := some v }
  | .contexto => { r with contexto := some v }
  | .fazenda => { r with fazenda := some v }
  | .parceiro => { r with parceiro := some v }
  | .fundo => { r with fundo := some v }
  | .spe => { r with spe := some v }
  | .ano_emissao => { r with ano_emissao := some v }
  | .nome_documento => { r with nome_documento := some v }
  | .proprietario => { r with proprietario := some v }
  | .documento_pf_pj => { r with documento_pf_pj := some v }

/-- Lookup in the confidence dictionary; the most recent write for a field
shadows older ones, and a missing entry reads as 0 (`dict.get(field, 0.0)`). -/
def confLookup (f : FieldName) : List (FieldName × ℚ) → ℚ
  | [] => 0
  | (g, c) :: rest => if g = f then c else confLookup f rest

/-- Embeds `ParsedFields.set_value`: record the value and its confidence, but only
when the value is truthy (neither `None` nor the empty string). -/
def set_value (r : ParsedFields) (f : FieldName) (v : Option Text) (conf : ℚ) :
    ParsedFields :=
  match v with
  | none => r
  | some s =>
    if s = [] then r
    else { r.setField f s with confidences := (f, conf) :: r.confidences }

/-- Embeds `ParsedFields.get_confidence`. -/
def get_confidence (r : ParsedFields) (f : FieldName) : ℚ :=
  confLookup f r.confidences

end ParsedFields

/-! ## `parsing.parse_document`

The body of `parse_document` is embedded as a composition of named steps,
one per source block, applied in source order. -/

/-- Date block of `parse_document`. -/
def step_date (u : Text) (r : ParsedFields) : ParsedFields :=
  let p := extract_date u
  r.set_value .data_assinatura p.1 p.2

/-- Contract-number block. -/
def step_number (u : Text) (r : ParsedFields) : ParsedFields :=
  let p := extract_contract_number u
  r.set_value .numero_contrato p.1 p.2

/-- Contract-type block, including the `CPR → CPA` rewrite. -/
def step_tipo (u : Text) (r : ParsedFields) : ParsedFields :=
  let p := extract_contract_type u
  let ct := if p.1 = some "CPR".toList then some "CPA".toList else p.1
  r.set_value .tipo_contrato ct p.2

/-- Title block. -/
def step_title (u : Text) (r : ParsedFields) : ParsedFields :=
  let p := extract_title u
  r.set_value .titulo_documento p.1 p.2

/-- Environmental-document block, with its issue-year fallback. -/
def step_env (u : Text) (r : ParsedFields) : ParsedFields :=
  match extract_environmental u with
  | (none, _) => r
  | (some v, conf) =>
    let r₁ := r.set_value .nome_documento (some v) conf
    if r₁.ano_emissao ≠ none then r₁
    else
      let p := extract_date u
      match p.1 with
      | some y =>
        if y.length = 4 then r₁.set_value .ano_emissao (some y) p.2
        else
          match yearSearch u with
          | some ym => r₁.set_value .ano_emissao (some ym) 0.7
          | none => r₁
      | none =>
        match yearSearch u with
        | some ym => r₁.set_value .ano_emissao (some ym) 0.7
        | none => r₁

/-- Context block: record the resolved context value. -/
def step_context (hint cv : Text) (r : ParsedFields) : ParsedFields :=
  r.set_value .contexto (some cv) (if hint = "auto".toList then 0.6 else 1)

/-- Market entity block (`fazenda`, `parceiro`), guarded by the resolved
context. -/
def step_mercado (u cv : Text) (r : ParsedFields) : ParsedFields :=
  if decide (cv = "mercado".toList) || decide (cv = "auto".toList) then
    let r₁ :=
      match extract_entity u "FAZENDA".toList with
      | some v => r.set_value .fazenda (some v) 0.75
      | none => r
    match extract_entity u "PARCEIRO".toList with
    | some v => r₁.set_value .parceiro (some v) 0.75
    | none => r₁
  else r

/-- Fund entity block (`fundo`, `spe`), guarded by the resolved context. -/
def step_fundos (u cv : Text) (r : ParsedFields) : ParsedFields :=
  if decide (cv = "fundos".toList) || decide (cv = "auto".toList) then
    let r₁ :=
      match extract_entity u "FUNDO".toList with
      | some v => r.set_value .fundo (some v) 0.8
      | none => r
    match extract_entity u "SPE".toList with
    | some v => r₁.set_value .spe (some v) 0.8
    | none => r₁
  else r

/-- Person block (`proprietario`, `documento_pf_pj`). -/
def step_person (u : Text) (r : ParsedFields) : ParsedFields :=
  let p := extract_person u
  let r₁ :=
    match p.1 with
    | some v => r.set_value .proprietario (some v) p.2.2
    | none => r
  match p.2.1 with
  | some v => r₁.set_value .documento_pf_pj (some v) 0.7
  | none => r₁

/-- Final confidence boost for the disambiguated `CPA`/`CPR` case
(`result.confidences["tipo_contrato"] = max(..., 0.9)`). -/
def step_boost (u : Text) (r : ParsedFields) : ParsedFields :=
  if r.tipo_contrato = some "CPA".toList && containsSub "CPR".toList u then
    { r with
      confidences :=
        (FieldName.tipo_contrato, max (r.get_confidence .tipo_contrato) 0.9) ::
          r.confidences }
  else r

/-- Embeds `parsing.parse_document`. -/
def parse_document (t : Text) (context_hint : Text := "auto".toList) : ParsedFields :=
  let u := upperStr (normalize_text t)
  let cv := if context_hint ≠ "auto".toList then context_hint else detect_context u
  step_boost u
    (step_person u
      (step_fundos u cv
        (step_mercado u cv
          (step_context context_hint cv
            (step_env u
              (step_title u
                (step_tipo u
                  (step_number u
                    (step_date u { raw_text := t })))))))))

/-! ## `rules.py` — rule selection and filename assembly

`RuleError` (raised with the message `"Campo obrigatório ausente: <field>"`)
is embedded as the `Except.error` case carrying the missing field's name. -/

/-- Embeds `rules._require`: fail on a missing or empty value (Python truthiness). -/
def require (v : Option Text) (fieldName : Text) : Except Text Text :=
  match v with
  | none => .error fieldName
  | some s => if s = [] then .error fieldName else .ok s

/-- Embeds `"_".join(parts)`. -/
def joinUnderscore (parts : List Text) : Text := List.intercalate ['_'] parts

/-- Embeds `rules._build_contrato_mercado`. -/
def build_contrato_mercado (p : ParsedFields) : Except Text Text := do
  let data ← require p.data_assinatura "data_assinatura".toList
  let tipo ← require p.tipo_contrato "tipo_contrato".toList
  let numero ← require p.numero_contrato "numero_contrato".toList
  let titulo ← require p.titulo_documento "titulo_documento".toList
  let fazenda ← require p.fazenda "fazenda".toList
  return joinUnderscore [data, tipo, numero, titulo, fazenda]

/-- Embeds `rules._build_contrato_fundos`. -/
def build_contrato_fundos (p : ParsedFields) : Except Text Text := do
  let data ← require p.data_assinatura "data_assinatura".toList
  let tipo ← require p.tipo_contrato "tipo_contrato".toList
  let numero ← require p.numero_contrato "numero_contrato".toList
  let titulo ← require p.titulo_documento "titulo_documento".toList
  let fundo ← require p.fundo "fundo".toList
  let spe ← require p.spe "spe".toList
  return joinUnderscore [data, tipo, numero, titulo, fundo, spe]

/-- Embeds `rules._build_documento_mercado`. -/
def build_documento_mercado (p : ParsedFields) : Except Text Text := do
  let ano ← require p.ano_emissao "ano_emissao".toList
  let nome ← require p.nome_documento "nome_documento".toList
  let fazenda ← require p.fazenda "fazenda".toList
  let parceiro ← require p.parceiro "parceiro".toList
  return joinUnderscore [ano, nome, fazenda, parceiro]

/-- Embeds `rules._build_documento_fundos`. -/
def build_documento_fundos (p : ParsedFields) : Except Text Text := do
  let ano ← require p.ano_emissao "ano_emissao".toList
  let nome ← require p.nome_documento "nome_documento".toList
  let fundo ← require p.fundo "fundo".toList
  let spe ← require p.spe "spe".toList
  return joinUnderscore [ano, nome, fundo, spe]

/-- Embeds `rules._build_pessoa`. -/
def build_pessoa (p : ParsedFields) : Except Text Text := do
  let proprietario ← require p.proprietario "proprietario".toList
  let documento ← require p.documento_pf_pj "documento_pf_pj".toList
  return joinUnderscore [proprietario, documento]

/-- Python truthiness of an optional string. -/
def truthy : Option Text → Bool
  | none => false
  | some s => !decide (s = [])

/-- Embeds `rules.build_filename`: branch selection in source order. -/
def build_filename (p : ParsedFields) : Except Text Text :=
  if truthy p.documento_pf_pj && truthy p.proprietario then build_pessoa p
  else if truthy p.nome_documento then
    let contexto := match p.contexto with | some c => if c = [] then "auto".toList else c | none => "auto".toList
    if decide (contexto = "fundos".toList) || (truthy p.fundo && truthy p.spe) then
      build_documento_fundos p
    else build_documento_mercado p
  else
    let contexto := match p.contexto with | some c => if c = [] then "auto".toList else c | none => "auto".toList
    if decide (contexto = "fundos".toList) || (truthy p.fundo && truthy p.spe) then
      build_contrato_fundos p
    else build_contrato_mercado p

/-! ## `cli.py` — the confidence gate and the per-file decision -/

/-- Embeds `cli._required_fields`. -/
def required_fields (p : ParsedFields) : List FieldName :=
  if truthy p.documento_pf_pj && truthy p.proprietario then
    [.proprietario, .documento_pf_pj]
  else if truthy p.nome_documento then
    if p.contexto = some "fundos".toList || (truthy p.fundo && truthy p.spe) then
      [.ano_emissao, .nome_documento, .fundo, .spe]
    else [.ano_emissao, .nome_documento, .fazenda, .parceiro]
  else if p.contexto = some "fundos".toList || (truthy p.fundo && truthy p.spe) then
    [.data_assinatura, .tipo_contrato, .numero_contrato, .titulo_documento, .fundo, .spe]
  else
    [.data_assinatura, .tipo_contrato, .numero_contrato, .titulo_documento, .fazenda]

/-- Embeds `cli._confidence_ok`. -/
def confidence_ok (p : ParsedFields) (required : List FieldName) (threshold : ℚ) : Bool :=
  required.all (fun f => !decide (p.get_confidence f < threshold))

/-- Disposition of one parsed document in `cli.process` (the OCR and
filesystem surroundings are external collaborators). -/
inductive ProcOutcome
  | pendingLowConfidence
  | pendingRuleFailure (missing : Text)
  | renamed (name : Text)
deriving DecidableEq, Repr

/-- The decision core of `cli.process` for one document: gate on the
confidence of every required field of the chosen branch, then build the
filename, routing rule failures to the pending queue. -/
def process_decision (p : ParsedFields) (threshold : ℚ) : ProcOutcome :=
  let required := required_fields p
  if !confidence_ok p required threshold then .pendingLowConfidence
  else
    match build_filename p with
    | .error e => .pendingRuleFailure e
    | .ok name => .renamed name

/-- The default `AppConfig.confidence_threshold`. -/
def defaultThreshold : ℚ := 0.7

/-! ## `renamer.py` — collision-safe renaming

The output directory's contents are embedded as the list of file names
present in it. -/

/-- Embeds `renamer.RenameResult`. -/
structure RenameResult where
  original_path : Text
  new_path : Text
  status : Text
  message : Text := []
deriving DecidableEq, Repr

/-- The `while` loop of `_resolve_collision`: try `base_v2`, `base_v3`, …
until an unused name is found.  The loop terminates on the first free name;
`fuel` bounds the recursion and is chosen large enough that a free name is
always found before it runs out. -/
def resolveLoop (fs : List Text) (base suffix : Text) : Nat → Nat → Text
  | counter, 0 => base ++ "_v".toList ++ (Nat.repr counter).toList ++ suffix
  | counter, fuel + 1 =>
    let candidate := base ++ "_v".toList ++ (Nat.repr counter).toList ++ suffix
    if candidate ∈ fs then resolveLoop fs base suffix (counter + 1) fuel
    else candidate

/-- Embeds `renamer._resolve_collision` on a directory containing `fs`, for a
target with stem `base` and extension `suffix`. -/
def resolve_collision (fs : List Text) (base suffix : Text) : Text :=
  if base ++ suffix ∈ fs then resolveLoop fs base suffix 2 (fs.length + 1)
  else base ++ suffix

/-- The filesystem state visible to `renamer.rename_file`: whether the
output directory exists, and the names of the files inside it.  The
directory-tree creation of `mkdir(parents=True, exist_ok=True)` collapses
to marking the output directory (with its parents) existing; a freshly
created directory is empty, so `files` is unaffected by it. -/
structure DirState where
  out_dir_exists : Bool
  files : List Text
deriving DecidableEq, Repr

/-- Embeds `renamer.rename_file`: first unconditionally ensure the output
directory exists (`out_directory.mkdir(parents=True, exist_ok=True)`,
executed *before* the `dry_run` branch), then resolve the collision-free
target, and either simulate (`dry_run`) or move the file.  Returns the
outcome together with the new filesystem state. -/
def rename_file (st : DirState) (src_name src_suffix new_name : Text)
    (dry_run : Bool) : RenameResult × DirState :=
  let st₁ : DirState := { st with out_dir_exists := true }
  let target := resolve_collision st₁.files new_name src_suffix
  if dry_run then
    ({ original_path := src_name ++ src_suffix, new_path := target,
       status := "dry_run".toList, message := "Simulação".toList }, st₁)
  else
    ({ original_path := src_name ++ src_suffix, new_path := target,
       status := "renamed".toList }, { st₁ with files := target :: st₁.files })

/-! ## Concrete example inputs used by the witnesses below -/

/-- The completely extracted market-contract field set of the repository's
own rule test, with per-field confidences, except that `fazenda` was
extracted with confidence 0.5 — below the default threshold. -/
def gateExample : ParsedFields :=
  { data_assinatura := some ("20231018".toList),
    tipo_contrato := some ("CCV".toList),
    numero_contrato := some ("232853".toList),
    titulo_documento := some ("CONTR".toList),
    fazenda := some ("CONTENDAS".toList),
    contexto := some ("mercado".toList),
    confidences :=
      [(.data_assinatura, 0.95), (.numero_contrato, 0.9), (.tipo_contrato, 0.85),
       (.titulo_documento, 0.8), (.fazenda, 0.5), (.contexto, 1)] }

/-- A document mentioning both `CPA` and `CPR` as standalone tokens and no
other contract-type code. -/
def cpaCprText : Text := "PARCERIA CPA (CPR) ASSINADA".toList

/-- A document containing `SPE` only inside the longer word `ESPECIFICO`
and no fund keyword as a standalone token. -/
def fundSubstringText : Text := "IMOVEL ESPECIFICO DA EMPRESA".toList

/-- An already-normalized uppercase text with the `FAZENDA` entity anchor. -/
def entityText : Text := "FAZENDA CONTENDAS PARCEIRO RADIAL EUCALYPT".toList

/-- A raw text exercising the normalizer: accents, tabs, newlines and
redundant spaces. -/
def messyText : Text := "  Fazenda   São\tJoão \n é  ótima ".toList

/-! # Helper lemmas -/

namespace ParsedFields

theorem confidences_setField (r : ParsedFields) (f : FieldName) (v : Text) :
    (r.setField f v).confidences = r.confidences := by
  cases f <;> rfl

theorem get_mk_confidences (r : ParsedFields) (cs : List (FieldName × ℚ)) (g : FieldName) :
    ({ r with confidences := cs }).get g = r.get g := by
  cases g <;> rfl

theorem get_setField_self (r : ParsedFields) (f : FieldName) (v : Text) :
    (r.setField f v).get f = some v := by
  cases f <;> rfl

theorem get_setField_ne (r : ParsedFields) (f g : FieldName) (v : Text) (h : f ≠ g) :
    (r.setField f v).get g = r.get g := by
  cases f <;> cases g <;> first
    | exact absurd rfl h
    | rfl

theorem set_value_none (r : ParsedFields) (f : FieldName) (c : ℚ) :
    r.set_value f none c = r := rfl

theorem set_value_empty (r : ParsedFields) (f : FieldName) (c : ℚ) :
    r.set_value f (some []) c = r := rfl

theorem set_value_some (r : ParsedFields) (f : FieldName) (s : Text) (c : ℚ)
    (hs : s ≠ []) :
    r.set_value f (some s) c =
      { r.setField f s with confidences := (f, c) :: r.confidences } := by
  simp [set_value, hs]

theorem get_set_value_ne (r : ParsedFields) (f g : FieldName) (v : Option Text) (c : ℚ)
    (h : f ≠ g) : (r.set_value f v c).get g = r.get g := by
  cases v with
  | none => rfl
  | some s =>
    by_cases hs : s = []
    · subst hs; rfl
    · rw [set_value_some r f s c hs, get_mk_confidences, get_setField_ne r f g s h]

theorem get_set_value_self (r : ParsedFields) (f : FieldName) (s : Text) (c : ℚ)
    (hs : s ≠ []) : (r.set_value f (some s) c).get f = some s := by
  rw [set_value_some r f s c hs, get_mk_confidences, get_setField_self]

theorem confLookup_cons_ne (f g : FieldName) (c : ℚ) (rest : List (FieldName × ℚ))
    (h : f ≠ g) : confLookup g ((f, c) :: rest) = confLookup g rest := by
  simp [confLookup, h]

theorem confLookup_cons_self (f : FieldName) (c : ℚ) (rest : List (FieldName × ℚ)) :
    confLookup f ((f, c) :: rest) = c := by
  simp [confLookup]

theorem get_confidence_set_value_ne (r : ParsedFields) (f g : FieldName)
    (v : Option Text) (c : ℚ) (h : f ≠ g) :
    (r.set_value f v c).get_confidence g = r.get_confidence g := by
  cases v with
  | none => rfl
  | some s =>
    by_cases hs : s = []
    · subst hs; rfl
    · rw [set_value_some r f s c hs]
      show confLookup g ((f, c) :: r.confidences) = _
      rw [confLookup_cons_ne f g c _ h]
      rfl

theorem get_confidence_set_value_some_self (r : ParsedFields) (f : FieldName)
    (s : Text) (c : ℚ) (hs : s ≠ []) :
    (r.set_value f (some s) c).get_confidence f = c := by
  rw [set_value_some r f s c hs]
  show confLookup f ((f, c) :: r.confidences) = c
  rw [confLookup_cons_self]

end ParsedFields

/-! ## Frame lemmas: each parse step only writes its own fields -/

theorem step_date_preserves (u : Text) (r : ParsedFields) (g : FieldName)
    (h : g ≠ .data_assinatura) :
    (step_date u r).get g = r.get g ∧
      (step_date u r).get_confidence g = r.get_confidence g := by
  unfold step_date
  exact ⟨ParsedFields.get_set_value_ne r _ g _ _ (Ne.symm h),
    ParsedFields.get_confidence_set_value_ne r _ g _ _ (Ne.symm h)⟩

theorem step_number_preserves (u : Text) (r : ParsedFields) (g : FieldName)
    (h : g ≠ .numero_contrato) :
    (step_number u r).get g = r.get g ∧
      (step_number u r).get_confidence g = r.get_confidence g := by
  unfold step_number
  exact ⟨ParsedFields.get_set_value_ne r _ g _ _ (Ne.symm h),
    ParsedFields.get_confidence_set_value_ne r _ g _ _ (Ne.symm h)⟩

theorem step_tipo_preserves (u : Text) (r : ParsedFields) (g : FieldName)
    (h : g ≠ .tipo_contrato) :
    (step_tipo u r).get g = r.get g ∧
      (step_tipo u r).get_confidence g = r.get_confidence g := by
  unfold step_tipo
  exact ⟨ParsedFields.get_set_value_ne r _ g _ _ (Ne.symm h),
    ParsedFields.get_confidence_set_value_ne r _ g _ _ (Ne.symm h)⟩

theorem step_title_preserves (u : Text) (r : ParsedFields) (g : FieldName)
    (h : g ≠ .titulo_documento) :
    (step_title u r).get g = r.get g ∧
      (step_title u r).get_confidence g = r.get_confidence g := by
  unfold step_title
  exact ⟨ParsedFields.get_set_value_ne r _ g _ _ (Ne.symm h),
    ParsedFields.get_confidence_set_value_ne r _ g _ _ (Ne.symm h)⟩

theorem step_env_preserves (u : Text) (r : ParsedFields) (g : FieldName)
    (h₁ : g ≠ .nome_documento) (h₂ : g ≠ .ano_emissao) :
    (step_env u r).get g = r.get g ∧
      (step_env u r).get_confidence g = r.get_confidence g := by
  have e₁ : ∀ (r' : ParsedFields) v c, (r'.set_value .nome_documento v c).get g = r'.get g :=
    fun r' v c => ParsedFields.get_set_value_ne r' _ g v c (Ne.symm h₁)
  have e₂ : ∀ (r' : ParsedFields) v c, (r'.set_value .ano_emissao v c).get g = r'.get g :=
    fun r' v c => ParsedFields.get_set_value_ne r' _ g v c (Ne.symm h₂)
  have f₁ : ∀ (r' : ParsedFields) v c,
      (r'.set_value .nome_documento v c).get_confidence g = r'.get_confidence g :=
    fun r' v c => ParsedFields.get_confidence_set_value_ne r' _ g v c (Ne.symm h₁)
  have f₂ : ∀ (r' : ParsedFields) v c,
      (r'.set_value .ano_emissao v c).get_confidence g = r'.get_confidence g :=
    fun r' v c => ParsedFields.get_confidence_set_value_ne r' _ g v c (Ne.symm h₂)
  unfold step_env
  dsimp only
  constructor <;>
  · repeat' split
    all_goals simp only [e₁, e₂, f₁, f₂]

theorem step_context_preserves (hint cv : Text) (r : ParsedFields) (g : FieldName)
    (h : g ≠ .contexto) :
    (step_context hint cv r).get g = r.get g ∧
      (step_context hint cv r).get_confidence g = r.get_confidence g := by
  unfold step_context
  exact ⟨ParsedFields.get_set_value_ne r _ g _ _ (Ne.symm h),
    ParsedFields.get_confidence_set_value_ne r _ g _ _ (Ne.symm h)⟩

theorem step_mercado_preserves (u cv : Text) (r : ParsedFields) (g : FieldName)
    (h₁ : g ≠ .fazenda) (h₂ : g ≠ .parceiro) :
    (step_mercado u cv r).get g = r.get g ∧
      (step_mercado u cv r).get_confidence g = r.get_confidence g := by
  have e₁ : ∀ (r' : ParsedFields) v c, (r'.set_value .fazenda v c).get g = r'.get g :=
    fun r' v c => ParsedFields.get_set_value_ne r' _ g v c (Ne.symm h₁)
  have e₂ : ∀ (r' : ParsedFields) v c, (r'.set_value .parceiro v c).get g = r'.get g :=
    fun r' v c => ParsedFields.get_set_value_ne r' _ g v c (Ne.symm h₂)
  have f₁ : ∀ (r' : ParsedFields) v c,
      (r'.set_value .fazenda v c).get_confidence g = r'.get_confidence g :=
    fun r' v c => ParsedFields.get_confidence_set_value_ne r' _ g v c (Ne.symm h₁)
  have f₂ : ∀ (r' : ParsedFields) v c,
      (r'.set_value .parceiro v c).get_confidence g = r'.get_confidence g :=
    fun r' v c => ParsedFields.get_confidence_set_value_ne r' _ g v c (Ne.symm h₂)
  unfold step_mercado
  constructor <;>
  · repeat' split
    all_goals simp only [e₁, e₂, f₁, f₂]

theorem step_fundos_preserves (u cv : Text) (r : ParsedFields) (g : FieldName)
    (h₁ : g ≠ .fundo) (h₂ : g ≠ .spe) :
    (step_fundos u cv r).get g = r.get g ∧
      (step_fundos u cv r).get_confidence g = r.get_confidence g := by
  have e₁ : ∀ (r' : ParsedFields) v c, (r'.set_value .fundo v c).get g = r'.get g :=
    fun r' v c => ParsedFields.get_set_value_ne r' _ g v c (Ne.symm h₁)
  have e₂ : ∀ (r' : ParsedFields) v c, (r'.set_value .spe v c).get g = r'.get g :=
    fun r' v c => ParsedFields.get_set_value_ne r' _ g v c (Ne.symm h₂)
  have f₁ : ∀ (r' : ParsedFields) v c,
      (r'.set_value .fundo v c).get_confidence g = r'.get_confidence g :=
    fun r' v c => ParsedFields.get_confidence_set_value_ne r' _ g v c (Ne.symm h₁)
  have f₂ : ∀ (r' : ParsedFields) v c,
      (r'.set_value .spe v c).get_confidence g = r'.get_confidence g :=
    fun r' v c => ParsedFields.get_confidence_set_value_ne r' _ g v c (Ne.symm h₂)
  unfold step_fundos
  constructor <;>
  · repeat' split
    all_goals simp only [e₁, e₂, f₁, f₂]

theorem step_person_preserves (u : Text) (r : ParsedFields) (g : FieldName)
    (h₁ : g ≠ .proprietario) (h₂ : g ≠ .documento_pf_pj) :
    (step_person u r).get g = r.get g ∧
      (step_person u r).get_confidence g = r.get_confidence g := by
  have e₁ : ∀ (r' : ParsedFields) v c, (r'.set_value .proprietario v c).get g = r'.get g :=
    fun r' v c => ParsedFields.get_set_value_ne r' _ g v c (Ne.symm h₁)
  have e₂ : ∀ (r' : ParsedFields) v c, (r'.set_value .documento_pf_pj v c).get g = r'.get g :=
    fun r' v c => ParsedFields.get_set_value_ne r' _ g v c (Ne.symm h₂)
  have f₁ : ∀ (r' : ParsedFields) v c,
      (r'.set_value .proprietario v c).get_confidence g = r'.get_confidence g :=
    fun r' v c => ParsedFields.get_confidence_set_value_ne r' _ g v c (Ne.symm h₁)
  have f₂ : ∀ (r' : ParsedFields) v c,
      (r'.set_value .documento_pf_pj v c).get_confidence g = r'.get_confidence g :=
    fun r' v c => ParsedFields.get_confidence_set_value_ne r' _ g v c (Ne.symm h₂)
  unfold step_person
  dsimp only
  constructor <;>
  · repeat' split
    all_goals simp only [e₁, e₂, f₁, f₂]

theorem step_boost_preserves_get (u : Text) (r : ParsedFields) (g : FieldName) :
    (step_boost u r).get g = r.get g := by
  unfold step_boost
  split
  · exact ParsedFields.get_mk_confidences r _ g
  · rfl

theorem step_boost_preserves_conf (u : Text) (r : ParsedFields) (g : FieldName)
    (h : g ≠ .tipo_contrato) :
    (step_boost u r).get_confidence g = r.get_confidence g := by
  unfold step_boost
  split
  · show ParsedFields.confLookup g ((FieldName.tipo_contrato, _) :: r.confidences) = _
    rw [ParsedFields.confLookup_cons_ne _ g _ _ (Ne.symm h)]
    rfl
  · rfl

/-! ## Entity collection and slug lemmas -/

theorem collectAux_eq_takeWhile_take (toks : List Text) :
    ∀ n : Nat, n < 3 →
      collectAux n toks =
        (toks.takeWhile (fun tk => !decide (tk ∈ STOP_WORDS))).take (3 - n) := by
  induction toks with
  | nil => intro n _; simp [collectAux]
  | cons tk rest ih =>
    intro n hn
    by_cases hstop : tk ∈ STOP_WORDS
    · simp [collectAux, hstop, List.takeWhile_cons]
    · by_cases h3 : 3 ≤ n + 1
      · have hn2 : n = 2 := by omega
        subst hn2
        simp [collectAux, hstop, List.takeWhile_cons]
      · have hrw : 3 - n = (3 - (n + 1)) + 1 := by omega
        simp only [collectAux, hstop, decide_False, if_false, if_neg h3,
          List.takeWhile_cons, decide_True, Bool.not_false, if_true, hrw,
          List.take_succ_cons]
        rw [ih (n + 1) (by omega)]
        simp

theorem pyUpper_upper_or_digit (a : Char) (h : pyIsAlnum a = true) :
    (decide (pyUpper a ∈ upperChars) || isDigitCh (pyUpper a)) = true := by
  have h' : a ∈ lowerChars ∨ a ∈ upperChars ∨ a ∈ digitChars := by
    simpa [pyIsAlnum, Bool.or_eq_true, decide_eq_true_eq, or_assoc] using h
  have key : ∀ l : Text,
      (l.all fun c => decide (pyUpper c ∈ upperChars) || isDigitCh (pyUpper c)) = true →
      a ∈ l → (decide (pyUpper a ∈ upperChars) || isDigitCh (pyUpper a)) = true :=
    fun l hall ha => List.all_eq_true.mp hall a ha
  rcases h' with h | h | h
  · exact key lowerChars (by decide) h
  · exact key upperChars (by decide) h
  · exact key digitChars (by decide) h

theorem slug_chars (v : Text) (c : Char) (hc : c ∈ slugify_safe v) :
    (decide (c ∈ upperChars) || isDigitCh c) = true := by
  unfold slugify_safe at hc
  obtain ⟨a, _, hfa⟩ := List.mem_filterMap.mp hc
  by_cases h : pyIsAlnum a = true
  · rw [if_pos h] at hfa
    cases hfa
    exact pyUpper_upper_or_digit a h
  · rw [if_neg h] at hfa
    cases hfa

/-! ## List scanning helpers -/

theorem takeWhile_append_stop (p : Char → Bool) (d : Text) (sep : Char) (n : Text)
    (hd : ∀ c ∈ d, p c = true) (hs : p sep = false) :
    (d ++ sep :: n).takeWhile p = d := by
  induction d with
  | nil => simp [List.takeWhile_cons, hs]
  | cons c d' ih =>
    have hc : p c = true := hd c (List.mem_cons_self c d')
    simp only [List.cons_append, List.takeWhile_cons, hc, if_true]
    rw [ih (fun x hx => hd x (List.mem_cons_of_mem c hx))]

theorem takeWhile_all (p : Char → Bool) (l : Text) (h : ∀ c ∈ l, p c = true) :
    l.takeWhile p = l := by
  induction l with
  | nil => rfl
  | cons c l' ih =>
    simp only [List.takeWhile_cons, h c (List.mem_cons_self c l'), if_true]
    rw [ih (fun x hx => h x (List.mem_cons_of_mem c hx))]

/-! ## Word-search lemmas -/

theorem wordSearchAux_containsSub (w : Text) :
    ∀ (prev : Option Char) (s : Text),
      wordSearchAux w prev s = true → containsSub w s = true := by
  intro prev s
  induction s generalizing prev with
  | nil => simp [wordSearchAux]
  | cons c rest ih =>
    intro h
    simp only [wordSearchAux, Bool.or_eq_true] at h
    rcases h with h | h
    · unfold wordMatchAt at h
      simp only [Bool.and_eq_true] at h
      simp [containsSub, h.1.2]
    · simp [containsSub, ih (some c) h]

theorem wordSearch_containsSub (w s : Text) (h : wordSearch w s = true) :
    containsSub w s = true := wordSearchAux_containsSub w none s h

theorem step_boost_conf_cpa (u : Text) (r : ParsedFields)
    (h1 : r.tipo_contrato = some ("CPA".toList))
    (h2 : containsSub ("CPR".toList) u = true) :
    (step_boost u r).get_confidence .tipo_contrato =
      max (r.get_confidence .tipo_contrato) 0.9 := by
  unfold step_boost
  rw [if_pos (by rw [Bool.and_eq_true]; exact ⟨by rw [h1]; decide, h2⟩)]
  exact ParsedFields.confLookup_cons_self _ _ _

theorem extract_contract_type_cpa_first (u : Text)
    (hcpa : wordSearch ("CPA".toList) u = true)
    (hccv : wordSearch ("CCV".toList) u = false) :
    extract_contract_type u = (some ("CPA".toList), 0.85) := by
  simp only [extract_contract_type, CONTRACT_TYPES, extract_contract_type_go, hccv,
    Bool.false_eq_true, if_false, hcpa, if_true]
  split <;> rfl

/-! # Theorems -/

/-- C1: `build_filename` is a pure (total Lean) function of the `FieldSet`;
on the field set with signing date `20231018`, contract type `CCV`, contract
number `232853`, title `CONTR`, property name `CONTENDAS` and context
`mercado` it selects the market contract rule and produces exactly
`20231018_CCV_232853_CONTR_CONTENDAS`, the required fields joined by `_` in
their declared order. -/
theorem c1_market_contract_filename :
    build_filename
        { data_assinatura := some "20231018".toList,
          tipo_contrato := some "CCV".toList,
          numero_contrato := some "232853".toList,
          titulo_documento := some "CONTR".toList,
          fazenda := some "CONTENDAS".toList,
          contexto := some "mercado".toList } =
      build_contrato_mercado
        { data_assinatura := some "20231018".toList,
          tipo_contrato := some "CCV".toList,
          numero_contrato := some "232853".toList,
          titulo_documento := some "CONTR".toList,
          fazenda := some "CONTENDAS".toList,
          contexto := some "mercado".toList } ∧
    build_filename
        { data_assinatura := some "20231018".toList,
          tipo_contrato := some "CCV".toList,
          numero_contrato := some "232853".toList,
          titulo_documento := some "CONTR".toList,
          fazenda := some "CONTENDAS".toList,
          contexto := some "mercado".toList } =
      Except.ok ("20231018_CCV_232853_CONTR_CONTENDAS".toList ) :=
  ⟨rfl, rfl⟩

/-- C2 (counterexample): on the text `232853/1` the contract-number
extractor does *not* return only the leading digit run: stripping the
non-digits from `match.group(0)` keeps the digits of the suffix, so the
extracted value is `2328531`, not `232853`. -/
theorem c2_counterexample_suffix_digits_kept :
    extract_contract_number ("232853/1".toList) =
        (some ("2328531".toList), (0.9 : ℚ)) ∧
      ¬ ("2328531".toList = "232853".toList) := by
  refine ⟨?_, by decide⟩
  rfl

/-- C3 (counterexample): on the field set with only `proprietario =
ODETTELEITE`, `build_filename` fails naming `data_assinatura`, not the
`documento_pf_pj` (identity-document-type) field the claim predicts. -/
theorem c3_counterexample_error_names_data_assinatura :
    build_filename { proprietario := some "ODETTELEITE".toList } =
        Except.error ("data_assinatura".toList) ∧
      ¬ ("data_assinatura".toList = "documento_pf_pj".toList) :=
  ⟨rfl, by decide⟩

/-- C3 (amended): with `proprietario = ODETTELEITE` and every other field
empty, the person branch is not selected at all (its guard needs both
`documento_pf_pj` and `proprietario` to be truthy), so `build_filename`
falls through to the market contract rule and fails with a recoverable
missing-required-field error naming `data_assinatura`, the first required
field of that branch in declared order. -/
theorem c3_amended_falls_through_to_market_contract :
    truthy (ParsedFields.documento_pf_pj
        { proprietario := some "ODETTELEITE".toList }) = false ∧
    build_filename { proprietario := some "ODETTELEITE".toList } =
      build_contrato_mercado { proprietario := some "ODETTELEITE".toList } ∧
    build_filename { proprietario := some "ODETTELEITE".toList } =
      Except.error ("data_assinatura".toList) :=
  ⟨rfl, rfl, rfl⟩

/-- C5: whenever some field in the chosen branch's required-field list has
confidence strictly below the threshold, `process` routes the document to
the pending queue (status `pending`, never `renamed`), regardless of
whether `build_filename` would succeed (the gate is checked first and the
rule selector is not even consulted). -/
theorem c5_low_confidence_routes_to_pending (p : ParsedFields) (threshold : ℚ)
    (h : ∃ f ∈ required_fields p, p.get_confidence f < threshold) :
    process_decision p threshold = ProcOutcome.pendingLowConfidence ∧
      ∀ name, process_decision p threshold ≠ ProcOutcome.renamed name := by
  obtain ⟨f, hf, hlt⟩ := h
  have hok : confidence_ok p (required_fields p) threshold = false := by
    apply Bool.eq_false_iff.mpr
    intro hall
    have hh := List.all_eq_true.mp hall f hf
    simp only [Bool.not_eq_true', decide_eq_false_iff_not] at hh
    exact hh hlt
  constructor
  · simp [process_decision, hok]
  · intro name
    simp [process_decision, hok]

/-- C5 (witness): on a fully extracted market-contract field set whose
`fazenda` confidence is 0.5, the rule selector would succeed, yet the
document is routed to pending. -/
theorem c5_witness :
    (∃ f ∈ required_fields gateExample,
        gateExample.get_confidence f < defaultThreshold) ∧
      build_filename gateExample =
        Except.ok ("20231018_CCV_232853_CONTR_CONTENDAS".toList) ∧
      (process_decision gateExample defaultThreshold =
          ProcOutcome.pendingLowConfidence ∧
        ∀ name,
          process_decision gateExample defaultThreshold ≠
            ProcOutcome.renamed name) := by
  have hlt : gateExample.get_confidence FieldName.fazenda < defaultThreshold := by
    show ParsedFields.confLookup FieldName.fazenda gateExample.confidences < defaultThreshold
    simp only [gateExample, ParsedFields.confLookup]
    rw [if_neg (by decide), if_neg (by decide), if_neg (by decide), if_neg (by decide)]
    norm_num [defaultThreshold]
  exact ⟨⟨.fazenda, by decide, hlt⟩, rfl,
    c5_low_confidence_routes_to_pending gateExample defaultThreshold
      ⟨.fazenda, by decide, hlt⟩⟩

/-- C7 (counterexample): dry-run mode is *not* free of filesystem
mutation — `rename_file` runs `out_directory.mkdir(parents=True,
exist_ok=True)` unconditionally before the `dry_run` branch, so a dry run
against a missing output directory creates that directory: the post-state
differs from the input state. -/
theorem c7_counterexample_dry_run_creates_missing_out_dir :
    (rename_file ⟨false, []⟩ ("report".toList) (".pdf".toList) ("report".toList)
        true).2 = ⟨true, []⟩ ∧
      (rename_file ⟨false, []⟩ ("report".toList) (".pdf".toList) ("report".toList)
          true).2 ≠ ⟨false, []⟩ :=
  ⟨rfl, by decide⟩

/-- C7 (amended): in dry-run mode `rename_file` resolves exactly the same
target path as a real run would (same collision-suffix resolution) and
reports the simulated `dry_run` status; its only filesystem mutation is
the unconditional creation of the output directory performed before the
dry-run branch: the directory's files are untouched, the post-state is
exactly the input state with the output directory marked existing, and
when the output directory already exists a dry run mutates nothing at
all. -/
theorem c7_amended_dry_run_same_target_mkdir_only (st : DirState)
    (src_name src_suffix new_name : Text) :
    (rename_file st src_name src_suffix new_name true).2.files = st.files ∧
      (rename_file st src_name src_suffix new_name true).2 =
        { st with out_dir_exists := true } ∧
      (st.out_dir_exists = true →
        (rename_file st src_name src_suffix new_name true).2 = st) ∧
      (rename_file st src_name src_suffix new_name true).1.new_path =
        (rename_file st src_name src_suffix new_name false).1.new_path ∧
      (rename_file st src_name src_suffix new_name true).1.status =
        "dry_run".toList := by
  refine ⟨rfl, rfl, ?_, rfl, rfl⟩
  intro h
  obtain ⟨e, fi⟩ := st
  cases h
  rfl

/-- C7 (witness): renaming `report.pdf` into an existing directory already
containing `report.pdf` and `report_v2.pdf` resolves to `report_v3.pdf` in
dry-run and real mode alike, and the dry run leaves the state completely
unchanged. -/
theorem c7_witness :
    (rename_file ⟨true, ["report.pdf".toList, "report_v2.pdf".toList]⟩
          ("report".toList) (".pdf".toList) ("report".toList) true).2 =
        ⟨true, ["report.pdf".toList, "report_v2.pdf".toList]⟩ ∧
      (rename_file ⟨true, ["report.pdf".toList, "report_v2.pdf".toList]⟩
            ("report".toList) (".pdf".toList) ("report".toList) true).1.new_path =
        (rename_file ⟨true, ["report.pdf".toList, "report_v2.pdf".toList]⟩
            ("report".toList) (".pdf".toList) ("report".toList) false).1.new_path ∧
      (rename_file ⟨true, ["report.pdf".toList, "report_v2.pdf".toList]⟩
            ("report".toList) (".pdf".toList) ("report".toList) true).1.status =
        "dry_run".toList ∧
      (rename_file ⟨true, ["report.pdf".toList, "report_v2.pdf".toList]⟩
          ("report".toList) (".pdf".toList) ("report".toList) true).1.new_path =
        "report_v3.pdf".toList :=
  ⟨(c7_amended_dry_run_same_target_mkdir_only
        ⟨true, ["report.pdf".toList, "report_v2.pdf".toList]⟩
        ("report".toList) (".pdf".toList) ("report".toList)).2.2.1 rfl,
    (c7_amended_dry_run_same_target_mkdir_only
        ⟨true, ["report.pdf".toList, "report_v2.pdf".toList]⟩
        ("report".toList) (".pdf".toList) ("report".toList)).2.2.2.1,
    (c7_amended_dry_run_same_target_mkdir_only
        ⟨true, ["report.pdf".toList, "report_v2.pdf".toList]⟩
        ("report".toList) (".pdf".toList) ("report".toList)).2.2.2.2,
    by decide⟩

/-- C6: when the anchor keyword occurs in the text, entity extraction
collects exactly the whitespace-delimited tokens that follow it, truncated
at the first stop word or at three tokens, whichever comes first
(`takeWhile (not a stop word)` then `take 3`); the collected tokens are
joined and slugged, an empty collection yields no value, and every
character of a returned value is an uppercase letter or a digit. -/
theorem c6_entity_collection_stops_and_slugs (t kw rem : Text)
    (h : afterSub kw t = some rem) :
    (extract_entity t kw =
        (let toks :=
          splitWs (rem.dropWhile (fun c => decide (c = ' ') || decide (c = ':')))
         let collected :=
           (toks.takeWhile (fun tk => !decide (tk ∈ STOP_WORDS))).take 3
         if collected = [] then none
         else some (slugify_safe (joinSpace collected)))) ∧
      ∀ r, extract_entity t kw = some r →
        ∀ c ∈ r, (decide (c ∈ upperChars) || isDigitCh c) = true := by
  have hrw :
      extract_entity t kw =
        (let toks :=
          splitWs (rem.dropWhile (fun c => decide (c = ' ') || decide (c = ':')))
         let collected :=
           (toks.takeWhile (fun tk => !decide (tk ∈ STOP_WORDS))).take 3
         if collected = [] then none
         else some (slugify_safe (joinSpace collected))) := by
    unfold extract_entity
    rw [h]
    dsimp only
    rw [collectAux_eq_takeWhile_take _ 0 (by omega)]
  refine ⟨hrw, ?_⟩
  intro r hr c hc
  rw [hrw] at hr
  dsimp only at hr
  split at hr
  · cases hr
  · cases hr
    exact slug_chars _ c hc

/-- C6 (witness): on the normalized text
`FAZENDA CONTENDAS PARCEIRO RADIAL EUCALYPT` with anchor `FAZENDA`,
collection stops at the stop word `PARCEIRO`, the extracted property name
is `CONTENDAS`, and it consists of uppercase alphanumeric characters
only. -/
theorem c6_witness :
    afterSub ("FAZENDA".toList) entityText =
        some (" CONTENDAS PARCEIRO RADIAL EUCALYPT".toList) ∧
      extract_entity entityText ("FAZENDA".toList) = some ("CONTENDAS".toList) ∧
      ∀ c ∈ ("CONTENDAS".toList),
        (decide (c ∈ upperChars) || isDigitCh c) = true := by
  have h := c6_entity_collection_stops_and_slugs entityText ("FAZENDA".toList)
    (" CONTENDAS PARCEIRO RADIAL EUCALYPT".toList) (by decide)
  have he : extract_entity entityText ("FAZENDA".toList) =
      some ("CONTENDAS".toList) := by
    rw [h.1]
    decide
  exact ⟨by decide, he, fun c hc => h.2 _ he c hc⟩

/-- C2 (amended): on a text consisting of a 5-to-8-digit run directly
followed by a `/`- or `-`-separated nonempty digit suffix, contract-number
extraction returns *all* digit characters of the match — the leading run
with the suffix digits appended (so `232853/1` yields `2328531`) — with
confidence 0.90. -/
theorem c2_amended_extracts_all_match_digits (d n : Text) (sep : Char)
    (hd : ∀ c ∈ d, isDigitCh c = true) (h5 : 5 ≤ d.length) (h8 : d.length ≤ 8)
    (hsep : sep = '/' ∨ sep = '-') (hn : n ≠ [])
    (hnd : ∀ c ∈ n, isDigitCh c = true) :
    extract_contract_number (d ++ sep :: n) = (some (d ++ n), 0.9) := by
  have hsepd : isDigitCh sep = false := by
    rcases hsep with h | h <;> subst h <;> decide
  have hsepw : (decide (sep = '/') || decide (sep = '-')) = true := by
    rcases hsep with h | h <;> subst h <;> decide
  have htw : (d ++ sep :: n).takeWhile isDigitCh = d :=
    takeWhile_append_stop isDigitCh d sep n hd hsepd
  have hcond : (decide (d.length < 5) || decide (8 < d.length)) = false := by
    simp [Nat.not_lt.mpr h5, Nat.not_lt.mpr h8]
  have hmatch : contractMatchAt (d ++ sep :: n) = some (d ++ sep :: n) := by
    unfold contractMatchAt
    rw [htw]
    dsimp only
    rw [hcond]
    simp only [Bool.false_eq_true, if_false, List.drop_left, List.take_left]
    rw [takeWhile_all isDigitCh n hnd]
    simp [hsepw, List.length_pos.mpr hn, boundaryAfter]
  have hsearch : contractSearch (d ++ sep :: n) = some (d ++ sep :: n) := by
    cases d with
    | nil => simp at h5
    | cons c d' =>
      have hm : contractMatchAt (c :: (d' ++ sep :: n)) = some (c :: (d' ++ sep :: n)) := by
        simpa using hmatch
      simp only [contractSearch, List.cons_append, contractSearchAux, prevIsWord,
        Bool.false_eq_true, if_false, List.append_eq, hm]
  unfold extract_contract_number
  rw [hsearch]
  simp only [List.filter_append, List.filter_cons, hsepd, Bool.false_eq_true, if_false]
  rw [List.filter_eq_self.mpr (by simpa using hd), List.filter_eq_self.mpr (by simpa using hnd)]

/-- C2 (witness): concrete instance `232853/1`, whose extraction yields
`2328531` with confidence 0.90. -/
theorem c2_witness :
    (∀ c ∈ ("232853".toList), isDigitCh c = true) ∧
      5 ≤ ("232853".toList).length ∧ ("232853".toList).length ≤ 8 ∧
      ('/' = '/' ∨ '/' = '-') ∧ ("1".toList) ≠ [] ∧
      (∀ c ∈ ("1".toList), isDigitCh c = true) ∧
      extract_contract_number ("232853".toList ++ '/' :: "1".toList) =
        (some ("232853".toList ++ "1".toList), 0.9) :=
  ⟨by decide, by decide, by decide, Or.inl rfl, by decide, by decide,
    c2_amended_extracts_all_match_digits ("232853".toList) ("1".toList) '/'
      (by decide) (by decide) (by decide) (Or.inl rfl) (by decide) (by decide)⟩

/-- C4: for every text (and every context hint) whose uppercased normalized
form contains both `CPA` and `CPR` as whole-word tokens and no other
contract-type code, `parse_document` resolves the contract type to `CPA`
and assigns it confidence at least 0.90 (the alias-disambiguation boost). -/
theorem c4_cpa_cpr_resolves_to_cpa (t hint : Text)
    (hcpa : wordSearch ("CPA".toList) (upperStr (normalize_text t)) = true)
    (hcpr : wordSearch ("CPR".toList) (upperStr (normalize_text t)) = true)
    (hccv : wordSearch ("CCV".toList) (upperStr (normalize_text t)) = false)
    (_hcco : wordSearch ("CCO".toList) (upperStr (normalize_text t)) = false)
    (_hcce : wordSearch ("CCE".toList) (upperStr (normalize_text t)) = false)
    (_hcdc : wordSearch ("CDC".toList) (upperStr (normalize_text t)) = false) :
    (parse_document t hint).get .tipo_contrato = some ("CPA".toList) ∧
      (0.9 : ℚ) ≤ (parse_document t hint).get_confidence .tipo_contrato := by
  have main : ∀ (u cv hint' : Text) (r₀ : ParsedFields),
      extract_contract_type u = (some ("CPA".toList), 0.85) →
      containsSub ("CPR".toList) u = true →
      (step_boost u (step_person u (step_fundos u cv (step_mercado u cv
          (step_context hint' cv (step_env u (step_title u
            (step_tipo u r₀)))))))).get .tipo_contrato = some ("CPA".toList) ∧
        (0.9 : ℚ) ≤ (step_boost u (step_person u (step_fundos u cv (step_mercado u cv
          (step_context hint' cv (step_env u (step_title u
            (step_tipo u r₀)))))))).get_confidence .tipo_contrato := by
    intro u cv hint' r₀ hext hsub
    have h2 : (step_tipo u r₀).get .tipo_contrato = some ("CPA".toList) := by
      unfold step_tipo
      rw [hext]
      dsimp only
      rw [if_neg (by decide)]
      exact ParsedFields.get_set_value_self r₀ .tipo_contrato _ _ (by decide)
    have p3 := step_title_preserves u (step_tipo u r₀) .tipo_contrato (by decide)
    have p4 := step_env_preserves u (step_title u (step_tipo u r₀)) .tipo_contrato
      (by decide) (by decide)
    have p5 := step_context_preserves hint' cv
      (step_env u (step_title u (step_tipo u r₀))) .tipo_contrato (by decide)
    have p6 := step_mercado_preserves u cv
      (step_context hint' cv (step_env u (step_title u (step_tipo u r₀))))
      .tipo_contrato (by decide) (by decide)
    have p7 := step_fundos_preserves u cv
      (step_mercado u cv (step_context hint' cv (step_env u (step_title u
        (step_tipo u r₀))))) .tipo_contrato (by decide) (by decide)
    have p8 := step_person_preserves u
      (step_fundos u cv (step_mercado u cv (step_context hint' cv (step_env u
        (step_title u (step_tipo u r₀)))))) .tipo_contrato (by decide) (by decide)
    have hR : (step_person u (step_fundos u cv (step_mercado u cv
        (step_context hint' cv (step_env u (step_title u
          (step_tipo u r₀))))))).get .tipo_contrato = some ("CPA".toList) := by
      rw [p8.1, p7.1, p6.1, p5.1, p4.1, p3.1, h2]
    have hRproj : (step_person u (step_fundos u cv (step_mercado u cv
        (step_context hint' cv (step_env u (step_title u
          (step_tipo u r₀))))))).tipo_contrato = some ("CPA".toList) := hR
    constructor
    · exact (step_boost_preserves_get u _ .tipo_contrato).trans hR
    · rw [step_boost_conf_cpa u _ hRproj hsub]
      exact le_max_right _ _
  have hsub : containsSub ("CPR".toList) (upperStr (normalize_text t)) = true :=
    wordSearch_containsSub _ _ hcpr
  have hext : extract_contract_type (upperStr (normalize_text t)) =
      (some ("CPA".toList), 0.85) :=
    extract_contract_type_cpa_first _ hcpa hccv
  simp only [parse_document]
  exact main _ _ hint _ hext hsub

/-- C4 (witness): on `PARCERIA CPA (CPR) ASSINADA` (hint `auto`), the
contract type resolves to `CPA` with confidence at least 0.90. -/
theorem c4_witness :
    (wordSearch ("CPA".toList) (upperStr (normalize_text cpaCprText)) = true ∧
      wordSearch ("CPR".toList) (upperStr (normalize_text cpaCprText)) = true ∧
      wordSearch ("CCV".toList) (upperStr (normalize_text cpaCprText)) = false ∧
      wordSearch ("CCO".toList) (upperStr (normalize_text cpaCprText)) = false ∧
      wordSearch ("CCE".toList) (upperStr (normalize_text cpaCprText)) = false ∧
      wordSearch ("CDC".toList) (upperStr (normalize_text cpaCprText)) = false) ∧
      (parse_document cpaCprText ("auto".toList)).tipo_contrato =
        some ("CPA".toList) ∧
      (0.9 : ℚ) ≤
        (parse_document cpaCprText ("auto".toList)).get_confidence .tipo_contrato :=
  ⟨⟨by decide, by decide, by decide, by decide, by decide, by decide⟩,
    c4_cpa_cpr_resolves_to_cpa cpaCprText ("auto".toList) (by decide) (by decide)
      (by decide) (by decide) (by decide) (by decide)⟩

/-- C10: context auto-classification tests the fund vocabulary by substring
containment, not whole-word matching: any text whose uppercased normalized
form merely *contains* a fund keyword is classified `fundos` under the
`auto` hint.  Concretely, `IMOVEL ESPECIFICO DA EMPRESA` contains `SPE`
only inside `ESPECIFICO` — no fund keyword occurs as a standalone token —
yet its context resolves to `fundos`; likewise `str.find`-based entity
anchoring fires inside longer words: in `AFAZENDA BONITA` the anchor
`FAZENDA` is found inside `AFAZENDA` and the entity `BONITA` is
extracted. -/
theorem c10_substring_matching_not_whole_word :
    (∀ t : Text,
        (∃ kw ∈ KEYWORDS_FUNDOS,
          containsSub kw (upperStr (normalize_text t)) = true) →
        (parse_document t ("auto".toList)).get .contexto = some ("fundos".toList)) ∧
      ((parse_document fundSubstringText ("auto".toList)).get .contexto =
          some ("fundos".toList) ∧
        ∀ kw ∈ KEYWORDS_FUNDOS,
          wordSearch kw (upperStr (normalize_text fundSubstringText)) = false) ∧
      extract_entity ("AFAZENDA BONITA".toList) ("FAZENDA".toList) =
        some ("BONITA".toList) := by
  have main2 : ∀ (u hint' : Text) (r : ParsedFields),
      (step_boost u (step_person u (step_fundos u ("fundos".toList)
        (step_mercado u ("fundos".toList)
          (step_context hint' ("fundos".toList) r))))).get .contexto =
        some ("fundos".toList) := by
    intro u hint' r
    rw [step_boost_preserves_get]
    rw [(step_person_preserves u _ .contexto (by decide) (by decide)).1]
    rw [(step_fundos_preserves u _ _ .contexto (by decide) (by decide)).1]
    rw [(step_mercado_preserves u _ _ .contexto (by decide) (by decide)).1]
    unfold step_context
    exact ParsedFields.get_set_value_self r .contexto _ _ (by decide)
  refine ⟨?_, ⟨?_, by decide⟩, by decide⟩
  · intro t h
    obtain ⟨kw, hkw, hsub⟩ := h
    have hdet : detect_context (upperStr (normalize_text t)) = "fundos".toList := by
      unfold detect_context
      rw [if_pos (List.any_eq_true.mpr ⟨kw, hkw, hsub⟩)]
    simp only [parse_document]
    rw [if_neg (not_not_intro rfl), hdet]
    exact main2 _ _ _
  · have hdet : detect_context (upperStr (normalize_text fundSubstringText)) =
        "fundos".toList := by decide
    simp only [parse_document]
    rw [if_neg (not_not_intro rfl), hdet]
    exact main2 _ _ _

/-- C10 (witness): the fund keyword `SPE` occurs as a substring of the
normalized uppercased `IMOVEL ESPECIFICO DA EMPRESA`, and the parsed
context is `fundos`. -/
theorem c10_witness :
    (∃ kw ∈ KEYWORDS_FUNDOS,
        containsSub kw (upperStr (normalize_text fundSubstringText)) = true) ∧
      (parse_document fundSubstringText ("auto".toList)).get .contexto =
        some ("fundos".toList) :=
  ⟨⟨"SPE".toList, by decide, by decide⟩,
    c10_substring_matching_not_whole_word.1 fundSubstringText
      ⟨"SPE".toList, by decide, by decide⟩⟩

/-- A `set_value` call preserves the no-value-implies-zero-confidence
invariant: it either writes nothing, or writes a value and a confidence for
the same field. -/
theorem set_value_inv (r : ParsedFields) (f : FieldName) (v : Option Text) (c : ℚ)
    (h : ∀ g, r.get g = none → r.get_confidence g = 0) :
    ∀ g, (r.set_value f v c).get g = none →
      (r.set_value f v c).get_confidence g = 0 := by
  intro g hg
  cases v with
  | none => exact h g hg
  | some s =>
    by_cases hs : s = []
    · subst hs; exact h g hg
    · by_cases hfg : f = g
      · subst hfg
        rw [ParsedFields.get_set_value_self r f s c hs] at hg
        simp at hg
      · rw [ParsedFields.get_set_value_ne r f g (some s) c hfg] at hg
        rw [ParsedFields.get_confidence_set_value_ne r f g (some s) c hfg]
        exact h g hg

theorem step_date_inv (u : Text) (r : ParsedFields)
    (h : ∀ g, r.get g = none → r.get_confidence g = 0) :
    ∀ g, (step_date u r).get g = none → (step_date u r).get_confidence g = 0 := by
  unfold step_date
  exact set_value_inv r _ _ _ h

theorem step_number_inv (u : Text) (r : ParsedFields)
    (h : ∀ g, r.get g = none → r.get_confidence g = 0) :
    ∀ g, (step_number u r).get g = none → (step_number u r).get_confidence g = 0 := by
  unfold step_number
  exact set_value_inv r _ _ _ h

theorem step_tipo_inv (u : Text) (r : ParsedFields)
    (h : ∀ g, r.get g = none → r.get_confidence g = 0) :
    ∀ g, (step_tipo u r).get g = none → (step_tipo u r).get_confidence g = 0 := by
  unfold step_tipo
  exact set_value_inv r _ _ _ h

theorem step_title_inv (u : Text) (r : ParsedFields)
    (h : ∀ g, r.get g = none → r.get_confidence g = 0) :
    ∀ g, (step_title u r).get g = none → (step_title u r).get_confidence g = 0 := by
  unfold step_title
  exact set_value_inv r _ _ _ h

theorem step_env_inv (u : Text) (r : ParsedFields)
    (h : ∀ g, r.get g = none → r.get_confidence g = 0) :
    ∀ g, (step_env u r).get g = none → (step_env u r).get_confidence g = 0 := by
  unfold step_env
  dsimp only
  repeat' split
  all_goals
    first
    | exact h
    | exact set_value_inv _ _ _ _ h
    | exact set_value_inv _ _ _ _ (set_value_inv _ _ _ _ h)

theorem step_context_inv (hint cv : Text) (r : ParsedFields)
    (h : ∀ g, r.get g = none → r.get_confidence g = 0) :
    ∀ g, (step_context hint cv r).get g = none →
      (step_context hint cv r).get_confidence g = 0 := by
  unfold step_context
  exact set_value_inv r _ _ _ h

theorem step_mercado_inv (u cv : Text) (r : ParsedFields)
    (h : ∀ g, r.get g = none → r.get_confidence g = 0) :
    ∀ g, (step_mercado u cv r).get g = none →
      (step_mercado u cv r).get_confidence g = 0 := by
  unfold step_mercado
  dsimp only
  repeat' split
  all_goals
    first
    | exact h
    | exact set_value_inv _ _ _ _ h
    | exact set_value_inv _ _ _ _ (set_value_inv _ _ _ _ h)

theorem step_fundos_inv (u cv : Text) (r : ParsedFields)
    (h : ∀ g, r.get g = none → r.get_confidence g = 0) :
    ∀ g, (step_fundos u cv r).get g = none →
      (step_fundos u cv r).get_confidence g = 0 := by
  unfold step_fundos
  dsimp only
  repeat' split
  all_goals
    first
    | exact h
    | exact set_value_inv _ _ _ _ h
    | exact set_value_inv _ _ _ _ (set_value_inv _ _ _ _ h)

theorem step_person_inv (u : Text) (r : ParsedFields)
    (h : ∀ g, r.get g = none → r.get_confidence g = 0) :
    ∀ g, (step_person u r).get g = none → (step_person u r).get_confidence g = 0 := by
  unfold step_person
  dsimp only
  repeat' split
  all_goals
    first
    | exact h
    | exact set_value_inv _ _ _ _ h
    | exact set_value_inv _ _ _ _ (set_value_inv _ _ _ _ h)

theorem step_boost_inv (u : Text) (r : ParsedFields)
    (h : ∀ g, r.get g = none → r.get_confidence g = 0) :
    ∀ g, (step_boost u r).get g = none → (step_boost u r).get_confidence g = 0 := by
  unfold step_boost
  split
  · rename_i hcond
    intro g hg
    rw [ParsedFields.get_mk_confidences] at hg
    by_cases hge : g = .tipo_contrato
    · subst hge
      rw [Bool.and_eq_true] at hcond
      have htipo := of_decide_eq_true hcond.1
      have hg' : r.tipo_contrato = none := hg
      rw [htipo] at hg'
      cases hg'
    · show ParsedFields.confLookup g ((FieldName.tipo_contrato, _) :: r.confidences) = 0
      rw [ParsedFields.confLookup_cons_ne _ g _ _ (fun he => hge he.symm)]
      exact h g hg
  · exact h

/-- C9: in every `ParsedFields` produced by `parse_document`, a field with
no value has confidence 0.0; correspondingly, `set_value` with a `None` or
empty value records neither a value nor a confidence, so a nonzero
confidence entry always accompanies a stored value. -/
theorem c9_missing_value_has_zero_confidence :
    (∀ (r : ParsedFields) (f : FieldName) (c : ℚ),
        r.set_value f none c = r ∧ r.set_value f (some []) c = r) ∧
      ∀ (t hint : Text) (f : FieldName),
        (parse_document t hint).get f = none →
          (parse_document t hint).get_confidence f = 0 := by
  refine ⟨fun r f c => ⟨rfl, rfl⟩, ?_⟩
  intro t hint
  have h0 : ∀ g, (({ raw_text := t } : ParsedFields)).get g = none →
      (({ raw_text := t } : ParsedFields)).get_confidence g = 0 := fun g _ => rfl
  simp only [parse_document]
  exact step_boost_inv _ _ (step_person_inv _ _ (step_fundos_inv _ _ _
    (step_mercado_inv _ _ _ (step_context_inv _ _ _ (step_env_inv _ _
      (step_title_inv _ _ (step_tipo_inv _ _ (step_number_inv _ _
        (step_date_inv _ _ h0)))))))))

/-- C9 (witness): on the empty document, `fazenda` has no value and its
confidence reads 0.0. -/
theorem c9_witness :
    (parse_document [] ("auto".toList)).get .fazenda = none ∧
      (parse_document [] ("auto".toList)).get_confidence .fazenda = 0 :=
  ⟨by decide,
    c9_missing_value_has_zero_confidence.2 [] ("auto".toList) .fazenda (by decide)⟩

/-- Every character emitted by a table decomposition is either a combining
mark or absent from the table (so NFKD output is decomposition-stable). -/
theorem nfkd_table_outputs_ok :
    nfkdTable.all
      (fun p => p.2.all
        (fun c => combining c || decide (tableLookup c nfkdTable = none))) = true := by
  decide

theorem tableLookup_mem (c : Char) (l : Text) :
    ∀ tbl : List (Char × Text), tableLookup c tbl = some l → (c, l) ∈ tbl := by
  intro tbl
  induction tbl with
  | nil => intro h; cases h
  | cons kv rest ih =>
    obtain ⟨k, v⟩ := kv
    intro h
    unfold tableLookup at h
    by_cases hk : k = c
    · rw [if_pos hk] at h
      subst hk
      cases h
      exact List.mem_cons_self _ _
    · rw [if_neg hk] at h
      exact List.mem_cons_of_mem _ (ih h)

theorem nfkdDecomp_stable (c c' : Char) (hmem : c' ∈ nfkdDecomp c)
    (hnc : combining c' = false) : nfkdDecomp c' = [c'] := by
  unfold nfkdDecomp at hmem
  cases h : tableLookup c nfkdTable with
  | none =>
    rw [h] at hmem
    have hc : c' = c := by simpa using hmem
    subst hc
    unfold nfkdDecomp
    rw [h]
  | some l =>
    rw [h] at hmem
    have hmem' : (c, l) ∈ nfkdTable := tableLookup_mem c l nfkdTable h
    have hall := List.all_eq_true.mp nfkd_table_outputs_ok (c, l) hmem'
    have hc' := List.all_eq_true.mp hall c' hmem
    rw [hnc] at hc'
    simp only [Bool.false_or, decide_eq_true_eq] at hc'
    unfold nfkdDecomp
    rw [hc']

theorem decompose_eq_self (l : Text) (h : ∀ c ∈ l, nfkdDecomp c = [c]) :
    decompose l = l := by
  unfold decompose
  induction l with
  | nil => rfl
  | cons c rest ih =>
    rw [List.flatMap_cons, h c (List.mem_cons_self c rest),
      ih (fun x hx => h x (List.mem_cons_of_mem c hx))]
    rfl

theorem collapse_ne_nil (l : Text) : ∀ c : Char, collapse (c :: l) ≠ [] := by
  induction l with
  | nil =>
    intro c
    by_cases h : pySpace c <;> simp [collapse, h]
  | cons c₂ rest ih =>
    intro c
    by_cases h₁ : pySpace c
    · by_cases h₂ : pySpace c₂
      · simpa [collapse, h₁, h₂] using ih c₂
      · simp [collapse, h₁, h₂]
    · simp [collapse, h₁]

theorem collapse_cons_not_space (c : Char) (l : Text) (h : pySpace c = false) :
    collapse (c :: l) = c :: collapse l := by
  cases l <;> simp [collapse, h]

theorem collapse_idem (l : Text) : collapse (collapse l) = collapse l := by
  induction l with
  | nil => rfl
  | cons c₁ tl ih =>
    cases tl with
    | nil =>
      by_cases h : pySpace c₁
      · rw [show collapse [c₁] = [' '] from by simp [collapse, h]]
        decide
      · have h' : pySpace c₁ = false := by simpa using h
        rw [show collapse [c₁] = [c₁] from by simp [collapse, h]]
        simp [collapse, h']
    | cons c₂ rest =>
      by_cases h₁ : pySpace c₁
      · by_cases h₂ : pySpace c₂
        · rw [show collapse (c₁ :: c₂ :: rest) = collapse (c₂ :: rest) from by
            simp [collapse, h₁, h₂]]
          exact ih
        · have h₂' : pySpace c₂ = false := by simpa using h₂
          have hc : collapse (c₂ :: rest) = c₂ :: collapse rest :=
            collapse_cons_not_space c₂ rest h₂'
          rw [show collapse (c₁ :: c₂ :: rest) = ' ' :: collapse (c₂ :: rest) from by
            simp [collapse, h₁, h₂]]
          rw [hc]
          rw [show collapse (' ' :: c₂ :: collapse rest) =
              ' ' :: collapse (c₂ :: collapse rest) from by
            simp [collapse, h₂', (by decide : pySpace ' ' = true)]]
          rw [← hc, ih, hc]
      · have h₁' : pySpace c₁ = false := by simpa using h₁
        rw [collapse_cons_not_space c₁ (c₂ :: rest) h₁',
          collapse_cons_not_space c₁ (collapse (c₂ :: rest)) h₁', ih]

theorem mem_collapse (l : Text) : ∀ c : Char, c ∈ collapse l → c = ' ' ∨ c ∈ l := by
  induction l with
  | nil => intro c h; simp [collapse] at h
  | cons c₁ tl ih =>
    cases tl with
    | nil =>
      intro c h
      by_cases hs : pySpace c₁
      · simp [collapse, hs] at h
        exact Or.inl h
      · simp [collapse, hs] at h
        exact Or.inr (by simp [h])
    | cons c₂ rest =>
      intro c h
      by_cases h₁ : pySpace c₁
      · by_cases h₂ : pySpace c₂
        · rw [show collapse (c₁ :: c₂ :: rest) = collapse (c₂ :: rest) from by
            simp [collapse, h₁, h₂]] at h
          rcases ih c h with h' | h'
          · exact Or.inl h'
          · exact Or.inr (List.mem_cons_of_mem c₁ h')
        · rw [show collapse (c₁ :: c₂ :: rest) = ' ' :: collapse (c₂ :: rest) from by
            simp [collapse, h₁, h₂]] at h
          rcases List.mem_cons.mp h with h' | h'
          · exact Or.inl h'
          · rcases ih c h' with h'' | h''
            · exact Or.inl h''
            · exact Or.inr (List.mem_cons_of_mem c₁ h'')
      · have h₁' : pySpace c₁ = false := by simpa using h₁
        rw [collapse_cons_not_space c₁ (c₂ :: rest) h₁'] at h
        rcases List.mem_cons.mp h with h' | h'
        · exact Or.inr (by simp [h'])
        · rcases ih c h' with h'' | h''
          · exact Or.inl h''
          · exact Or.inr (List.mem_cons_of_mem c₁ h'')

theorem collapse_last_space (l : Text) :
    ∀ c : Char, (collapse l).getLast? = some c → pySpace c = true →
      ∃ c', l.getLast? = some c' ∧ pySpace c' = true := by
  induction l with
  | nil => intro c h _; simp [collapse] at h
  | cons c₁ tl ih =>
    cases tl with
    | nil =>
      intro c h hs
      by_cases h₁ : pySpace c₁
      · exact ⟨c₁, rfl, h₁⟩
      · rw [show collapse [c₁] = [c₁] from by simp [collapse, h₁]] at h
        simp at h
        subst h
        exact absurd hs (by simpa using h₁)
    | cons c₂ rest =>
      intro c h hs
      have hne : collapse (c₂ :: rest) ≠ [] := collapse_ne_nil rest c₂
      obtain ⟨x, xs, hX⟩ := List.exists_cons_of_ne_nil hne
      by_cases h₁ : pySpace c₁
      · by_cases h₂ : pySpace c₂
        · rw [show collapse (c₁ :: c₂ :: rest) = collapse (c₂ :: rest) from by
            simp [collapse, h₁, h₂]] at h
          obtain ⟨c', hc', hsp⟩ := ih c h hs
          exact ⟨c', by rwa [List.getLast?_cons_cons], hsp⟩
        · rw [show collapse (c₁ :: c₂ :: rest) = ' ' :: collapse (c₂ :: rest) from by
            simp [collapse, h₁, h₂], hX, List.getLast?_cons_cons, ← hX] at h
          obtain ⟨c', hc', hsp⟩ := ih c h hs
          exact ⟨c', by rwa [List.getLast?_cons_cons], hsp⟩
      · have h₁' : pySpace c₁ = false := by simpa using h₁
        rw [collapse_cons_not_space c₁ (c₂ :: rest) h₁', hX,
          List.getLast?_cons_cons, ← hX] at h
        obtain ⟨c', hc', hsp⟩ := ih c h hs
        exact ⟨c', by rwa [List.getLast?_cons_cons], hsp⟩

theorem dropWhile_head_false (p : Char → Bool) (l : Text) :
    ∀ c : Char, (l.dropWhile p).head? = some c → p c = false := by
  induction l with
  | nil => intro c h; cases h
  | cons a rest ih =>
    intro c h
    rw [List.dropWhile_cons] at h
    by_cases hp : p a
    · rw [if_pos hp] at h
      exact ih c h
    · rw [if_neg hp] at h
      have : a = c := by simpa using h
      subst this
      simpa using hp

theorem dropWhile_eq_self_of_head (p : Char → Bool) (l : Text)
    (h : ∀ c, l.head? = some c → p c = false) : l.dropWhile p = l := by
  cases l with
  | nil => rfl
  | cons a rest =>
    rw [List.dropWhile_cons, if_neg]
    simp [h a rfl]

theorem pyStrip_head_false (t : Text) (c : Char) (h : (pyStrip t).head? = some c) :
    pySpace c = false := by
  unfold pyStrip at h
  rw [List.head?_reverse] at h
  have hne : ((dropSpaces t).reverse).dropWhile pySpace ≠ [] := by
    intro he
    rw [he] at h
    cases h
  obtain ⟨s, hs⟩ := List.dropWhile_suffix (l := (dropSpaces t).reverse) (p := pySpace)
  have h2 : ((dropSpaces t).reverse).getLast? = some c := by
    rw [← hs, List.getLast?_append_of_ne_nil s hne]
    exact h
  rw [List.getLast?_reverse] at h2
  exact dropWhile_head_false pySpace t c h2

theorem pyStrip_last_false (t : Text) (c : Char) (h : (pyStrip t).getLast? = some c) :
    pySpace c = false := by
  unfold pyStrip at h
  rw [List.getLast?_reverse] at h
  exact dropWhile_head_false pySpace ((dropSpaces t).reverse) c h

theorem pyStrip_eq_self (z : Text)
    (hh : ∀ c, z.head? = some c → pySpace c = false)
    (hl : ∀ c, z.getLast? = some c → pySpace c = false) : pyStrip z = z := by
  unfold pyStrip dropSpaces
  rw [dropWhile_eq_self_of_head pySpace z hh]
  rw [dropWhile_eq_self_of_head pySpace z.reverse
    (fun c hc => hl c (by rwa [List.head?_reverse] at hc))]
  exact List.reverse_reverse z

theorem pyStrip_subset (l : Text) : ∀ c : Char, c ∈ pyStrip l → c ∈ l := by
  intro c hc
  unfold pyStrip at hc
  rw [List.mem_reverse] at hc
  have h1 := (List.dropWhile_suffix (l := (dropSpaces l).reverse)
    (p := pySpace)).subset hc
  rw [List.mem_reverse] at h1
  exact (List.dropWhile_suffix (l := l) (p := pySpace)).subset h1

theorem mem_normalize (t : Text) (c : Char) (hc : c ∈ normalize_text t) :
    c = ' ' ∨ c ∈ (decompose t).filter (fun x => !combining x) := by
  unfold normalize_text at hc
  rcases mem_collapse _ c hc with h | h
  · exact Or.inl h
  · exact Or.inr (pyStrip_subset _ c h)

/-- C8: `normalize_text` is idempotent, and it performs no case mapping —
every character of its output is either a space introduced by whitespace
collapsing or a character taken unchanged from the NFKD decomposition of
some input character. -/
theorem c8_normalize_idempotent_no_case_change (t : Text) :
    normalize_text (normalize_text t) = normalize_text t ∧
      ∀ c ∈ normalize_text t, c = ' ' ∨ ∃ c₀ ∈ t, c ∈ nfkdDecomp c₀ := by
  have hmemX : ∀ c ∈ normalize_text t,
      c = ' ' ∨ (combining c = false ∧ ∃ c₀ ∈ t, c ∈ nfkdDecomp c₀) := by
    intro c hc
    rcases mem_normalize t c hc with h | h
    · exact Or.inl h
    · right
      rw [List.mem_filter] at h
      obtain ⟨hmem, hcomb⟩ := h
      refine ⟨by simpa using hcomb, ?_⟩
      unfold decompose at hmem
      obtain ⟨a, ha, hca⟩ := List.mem_flatMap.mp hmem
      exact ⟨a, ha, hca⟩
  have hstab : ∀ c ∈ normalize_text t, nfkdDecomp c = [c] ∧ (!combining c) = true := by
    intro c hc
    rcases hmemX c hc with h | ⟨hcomb, c₀, _, hmem⟩
    · subst h
      exact ⟨by decide, by decide⟩
    · exact ⟨nfkdDecomp_stable c₀ c hmem hcomb, by simp [hcomb]⟩
  have hdec : decompose (normalize_text t) = normalize_text t :=
    decompose_eq_self _ (fun c hc => (hstab c hc).1)
  have hfil : (normalize_text t).filter (fun x => !combining x) = normalize_text t :=
    List.filter_eq_self.mpr (fun c hc => (hstab c hc).2)
  have hstrip : pyStrip (normalize_text t) = normalize_text t := by
    apply pyStrip_eq_self
    · intro c hch
      unfold normalize_text at hch
      cases hsx : pyStrip ((decompose t).filter fun x => !combining x) with
      | nil =>
        rw [hsx] at hch
        cases hch
      | cons a rest =>
        have hpa : pySpace a = false := pyStrip_head_false _ a (by rw [hsx]; rfl)
        rw [hsx, collapse_cons_not_space a rest hpa] at hch
        have hca : a = c := by simpa using hch
        rw [← hca]
        exact hpa
    · intro c hcl
      unfold normalize_text at hcl
      by_contra hsp
      have hsp' : pySpace c = true := by simpa using hsp
      obtain ⟨c', hcl', hsp''⟩ := collapse_last_space _ c hcl hsp'
      exact absurd (pyStrip_last_false _ c' hcl') (by simp [hsp''])
  refine ⟨?_, fun c hc => (hmemX c hc).imp id And.right⟩
  calc normalize_text (normalize_text t)
      = collapse (pyStrip ((decompose (normalize_text t)).filter
          fun x => !combining x)) := rfl
    _ = collapse (pyStrip (normalize_text t)) := by rw [hdec, hfil]
    _ = collapse (normalize_text t) := by rw [hstrip]
    _ = normalize_text t := by
        conv_lhs =>
          rw [show normalize_text t =
            collapse (pyStrip ((decompose t).filter fun x => !combining x)) from rfl]
        rw [collapse_idem]
        rfl

/-- C8 (witness): idempotence on a concrete messy accented text, and a
concrete output character (`F`) that stems from an input character's
decomposition. -/
theorem c8_witness :
    normalize_text (normalize_text messyText) = normalize_text messyText ∧
      ('F' = ' ' ∨ ∃ c₀ ∈ messyText, 'F' ∈ nfkdDecomp c₀) :=
  ⟨(c8_normalize_idempotent_no_case_change messyText).1,
    (c8_normalize_idempotent_no_case_change messyText).2 'F' (by decide)⟩

end Renomeador
